import Mathlib

/-!
# Verification of pyrin entity and admin subsystems

Shallow embedding of the attribute-classification, dict-conversion,
primary-key, admin-page and PBKDF2-hash-format logic of the pyrin
framework, together with theorems settling the specification claims.

Conventions of the embedding:
* Python tuples/lists of names become `List String`; Python sets are
  represented by duplicate-free lists (`pySet` models `set(...)`)
  and only membership is ever relevant to the statements proved here.
* Python dicts become association lists with insert-or-overwrite
  assignment (`dictSet`) and first-match lookup (`dictGet`).
* Fallible Python code (code that raises) returns `Except`.
-/

namespace Pyrin

/-- The `SECURE_TRUE` / `SECURE_FALSE` sentinel singletons of
`pyrin.core.globals`.  Python compares them with `is`, which the
embedding models as equality of this two-valued type. -/
inductive SecureBool where
  | SECURE_TRUE
  | SECURE_FALSE
deriving DecidableEq, Repr

/-- Metadata of one mapped column attribute, as exposed by
`sqlalchemy.inspect(cls).column_attrs`: the attribute key, the
`is_foreign_key` and `primary_key` flags of its first column and the
pyrin-specific `exposed` flag of that column.  The `readable` flag
models the readability flag used by the admin default field set. -/
structure ColumnAttr where
  key : String
  is_foreign_key : Bool
  primary_key : Bool
  exposed : Bool
  readable : Bool
deriving DecidableEq, Repr

/-- Metadata of an entity type: its class name, its mapped column
attributes (in mapper order), its relationship property keys and its
hybrid property names, mirroring what `sqlalchemy.inspect` returns for
a mapped class. -/
structure EntityType where
  class_name : String
  column_attrs : List ColumnAttr
  relationship_keys : List String
  hybrid_property_keys : List String
deriving DecidableEq, Repr

/-- `AttributeMixin.is_exposed`: a name is exposed iff it does not
start with an underscore (`name.startswith('_')` is a check on the
first character; the empty string starts with nothing). -/
def is_exposed (name : String) : Bool :=
  !(name.data.head? == some '_')

/-- The primary-key columns of the mapper (`inspect(cls).primary_key`),
i.e. the column attributes whose column has `primary_key=True`, in
mapper order. -/
def EntityType.pk_attrs (e : EntityType) : List ColumnAttr :=
  e.column_attrs.filter (fun a => a.primary_key)

/-- `ColumnMixin.exposed_columns`: keys of column attributes that are
exposed by name, are neither foreign key nor primary key, and have
`exposed=True`. -/
def exposed_columns (e : EntityType) : List String :=
  (e.column_attrs.filter (fun a =>
    is_exposed a.key && a.is_foreign_key == false &&
      a.primary_key == false && a.exposed)).map (fun a => a.key)

/-- `ColumnMixin.not_exposed_columns`. -/
def not_exposed_columns (e : EntityType) : List String :=
  (e.column_attrs.filter (fun a =>
    (!is_exposed a.key || a.exposed == false) &&
      a.is_foreign_key == false && a.primary_key == false)).map (fun a => a.key)

/-- `ColumnMixin.all_columns = exposed_columns + not_exposed_columns`. -/
def all_columns (e : EntityType) : List String :=
  exposed_columns e ++ not_exposed_columns e

/-- `RelationshipMixin.exposed_relationships`. -/
def exposed_relationships (e : EntityType) : List String :=
  e.relationship_keys.filter (fun k => is_exposed k)

/-- `RelationshipMixin.not_exposed_relationships`. -/
def not_exposed_relationships (e : EntityType) : List String :=
  e.relationship_keys.filter (fun k => is_exposed k == false)

/-- `RelationshipMixin.relationships`. -/
def relationships (e : EntityType) : List String :=
  exposed_relationships e ++ not_exposed_relationships e

/-- `HybridPropertyMixin.exposed_hybrid_properties`. -/
def exposed_hybrid_properties (e : EntityType) : List String :=
  e.hybrid_property_keys.filter (fun k => is_exposed k)

/-- `HybridPropertyMixin.not_exposed_hybrid_properties`. -/
def not_exposed_hybrid_properties (e : EntityType) : List String :=
  e.hybrid_property_keys.filter (fun k => is_exposed k == false)

/-- `HybridPropertyMixin.all_hybrid_properties`. -/
def all_hybrid_properties (e : EntityType) : List String :=
  exposed_hybrid_properties e ++ not_exposed_hybrid_properties e

/-- `PrimaryKeyMixin.exposed_primary_key_columns`. -/
def exposed_primary_key_columns (e : EntityType) : List String :=
  (e.pk_attrs.filter (fun a => is_exposed a.key && a.exposed)).map (fun a => a.key)

/-- `PrimaryKeyMixin.not_exposed_primary_key_columns`. -/
def not_exposed_primary_key_columns (e : EntityType) : List String :=
  (e.pk_attrs.filter (fun a =>
    is_exposed a.key == false || a.exposed == false)).map (fun a => a.key)

/-- `PrimaryKeyMixin.primary_key_columns`. -/
def primary_key_columns (e : EntityType) : List String :=
  exposed_primary_key_columns e ++ not_exposed_primary_key_columns e

/-- `ForeignKeyMixin.exposed_foreign_key_columns`. -/
def exposed_foreign_key_columns (e : EntityType) : List String :=
  (e.column_attrs.filter (fun a =>
    a.is_foreign_key && is_exposed a.key && a.exposed)).map (fun a => a.key)

/-- `ForeignKeyMixin.not_exposed_foreign_key_columns`. -/
def not_exposed_foreign_key_columns (e : EntityType) : List String :=
  (e.column_attrs.filter (fun a =>
    a.is_foreign_key && (is_exposed a.key == false || a.exposed == false))).map
      (fun a => a.key)

/-- `ForeignKeyMixin.foreign_key_columns`. -/
def foreign_key_columns (e : EntityType) : List String :=
  exposed_foreign_key_columns e ++ not_exposed_foreign_key_columns e

/-- `AttributeMixin.all_exposed_attributes`. -/
def all_exposed_attributes (e : EntityType) : List String :=
  exposed_primary_key_columns e ++ exposed_foreign_key_columns e ++
    exposed_columns e ++ exposed_relationships e ++ exposed_hybrid_properties e

/-- `AttributeMixin.all_not_exposed_attributes`. -/
def all_not_exposed_attributes (e : EntityType) : List String :=
  not_exposed_primary_key_columns e ++ not_exposed_foreign_key_columns e ++
    not_exposed_columns e ++ not_exposed_relationships e ++
    not_exposed_hybrid_properties e

/-- `AttributeMixin.all_attributes`. -/
def all_attributes (e : EntityType) : List String :=
  all_exposed_attributes e ++ all_not_exposed_attributes e

/-- All attribute names of an entity type in declaration order:
column attribute keys, then relationship keys, then hybrid names.
SQLAlchemy mappers keep these namespaces mutually distinct. -/
def attribute_names (e : EntityType) : List String :=
  e.column_attrs.map (fun a => a.key) ++ e.relationship_keys ++ e.hybrid_property_keys

/-- Well-formedness of mapper metadata: attribute names are unique
across columns, relationships and hybrid properties (SQLAlchemy class
instrumentation guarantees one descriptor per name). -/
def WellFormed (e : EntityType) : Prop :=
  (attribute_names e).Nodup

instance (e : EntityType) : Decidable (WellFormed e) := by
  unfold WellFormed; infer_instance

/-- The `@local_cached` combinator of `pyrin.caching.decorators`: a read
through a cache cell returns the cached value when present, otherwise
computes the value and stores it. -/
def readCached {α : Type} (cache : Option α) (compute : α) : α × Option α :=
  match cache with
  | some v => (v, some v)
  | none => (compute, some compute)

/-- Iterated reads through a `local_cached` cache cell: `reads f n` is
the value returned by the `n`-th read, where the (possibly changing)
metadata visible at read `i` yields the freshly-computed value `f i`. -/
def cachedRead {α : Type} (f : Nat → α) : Nat → α × Option α
  | 0 => readCached none (f 0)
  | n + 1 => readCached (cachedRead f n).2 (f (n + 1))

/-- Python runtime values as they occur in entity attributes, `to_dict`
results and `from_dict` keyword arguments: scalars, `None`, the
`SECURE_*` sentinels, entity instances (class metadata plus attribute
values), lists and dicts. -/
inductive PyVal where
  | vnone
  | vint (n : Int)
  | vstr (s : String)
  | vbool (b : Bool)
  | vsecure (b : SecureBool)
  | ventity (cls : EntityType) (vals : List (String × PyVal))
  | vlist (l : List PyVal)
  | vdict (d : List (String × PyVal))

/-- A Python dict with string keys. -/
abbrev PyDict := List (String × PyVal)

/-- Dict lookup (`d.get(k)` without default). -/
def dictGet (d : PyDict) (k : String) : Option PyVal :=
  (d.find? (fun p => p.1 == k)).map (fun p => p.2)

/-- Dict assignment `d[k] = v`: overwrite the existing binding of `k`
or append a fresh one. -/
def dictSet (d : PyDict) (k : String) (v : PyVal) : PyDict :=
  if d.any (fun p => p.1 == k) then
    d.map (fun p => if p.1 == k then (k, v) else p)
  else
    d ++ [(k, v)]

/-- `d.pop(k, default)`: the bound value (or the default) together with
the dict with `k` removed. -/
def dictPop (d : PyDict) (k : String) (dflt : PyVal) : PyVal × PyDict :=
  match dictGet d k with
  | some v => (v, d.filter (fun p => !(p.1 == k)))
  | none => (dflt, d)

/-- `getattr(self, name)` on an entity's attribute values: mapped
attributes that were never assigned read as `None` in SQLAlchemy. -/
def getattr (vals : PyDict) (name : String) : PyVal :=
  (dictGet vals name).getD .vnone

/-- `setattr(self, name, v)`. -/
def setattr (vals : PyDict) (name : String) (v : PyVal) : PyDict :=
  dictSet vals name v

/-- `PrimaryKeyMixin.primary_key` result: `None`, a bare value, or a
tuple of values. -/
inductive PKResult where
  | noneV
  | single (v : PyVal)
  | tupleV (l : List PyVal)

/-- `PrimaryKeyMixin.primary_key(as_tuple)`. -/
def primary_key (cls : EntityType) (vals : PyDict) (as_tuple : Bool) : PKResult :=
  let columns := primary_key_columns cls
  match columns with
  | [] => .noneV
  | c :: rest =>
    if as_tuple == false && rest.length == 0 then
      .single (getattr vals c)
    else
      .tupleV ((c :: rest).map (fun col => getattr vals col))

/-- The `columns` / `exclude` arguments of `to_dict`: either a plain
list of names, or a dict keyed by entity class name. -/
inductive ColumnsArg where
  | plain (l : List String)
  | byClass (m : List (String × List String))
deriving DecidableEq, Repr

/-- The `rename` argument of `to_dict`: either a flat
original-to-new-name dict, or a dict of such dicts keyed by entity
class name. -/
inductive RenameArg where
  | flat (m : List (String × String))
  | byClass (m : List (String × List (String × String)))
deriving DecidableEq, Repr

/-- The keyword options accepted by `ConverterMixin.to_dict`; `none`
fields model options that were not provided. -/
structure ToDictOptions where
  exposed_only : SecureBool := .SECURE_TRUE
  columns : Option ColumnsArg := none
  rename : Option RenameArg := none
  exclude : Option ColumnsArg := none
  depth : Option Int := none
deriving DecidableEq, Repr

/-- Errors raised by the conversion methods.  `typeError` stands for
the `AttributeError`/`ValueError` style crashes Python produces when a
relationship value is not an entity. -/
inductive ConvError where
  | columnNotExisted
  | invalidDepth
  | typeError
deriving DecidableEq, Repr

/-- String-valued assoc lookup used for class-name keyed option dicts. -/
def strsGet (m : List (String × List String)) (k : String) : Option (List String) :=
  (m.find? (fun p => p.1 == k)).map (fun p => p.2)

/-- Assoc lookup for rename maps. -/
def renameGet (m : List (String × String)) (k : String) : Option String :=
  (m.find? (fun p => p.1 == k)).map (fun p => p.2)

/-- Assoc lookup for class-name keyed rename maps. -/
def renamesGet (m : List (String × List (String × String))) (k : String) :
    Option (List (String × String)) :=
  (m.find? (fun p => p.1 == k)).map (fun p => p.2)

/-- Duplicate-free image of a list, modelling Python `set(...)`
construction (set iteration order is unspecified in Python; only
membership matters to any statement below). -/
def pySet : List String → List String
  | [] => []
  | x :: rest =>
    let r := pySet rest
    if r.contains x then r else x :: r

/-- `ConverterMixin._extract_conditions`: resolves the `columns`,
`rename` and `exclude` options for the current entity class and returns
`(set(columns) - set(exclude), rename, set(exclude))`.  Python sets are
modelled as duplicate-free lists. -/
def extract_conditions (cls : EntityType) (o : ToDictOptions) :
    List String × List (String × String) × List String :=
  let columns : List String :=
    match o.columns with
    | none => []
    | some (.plain l) => l
    | some (.byClass m) => (strsGet m cls.class_name).getD []
  let rename : List (String × String) :=
    match o.rename with
    | none => []
    | some (.flat m) => m
    | some (.byClass m) =>
      -- the source only unwraps per-class when the dict is non-empty
      -- and its first value is itself a dict
      if m.isEmpty then [] else (renamesGet m cls.class_name).getD []
  let exclude : List String :=
    match o.exclude with
    | none => []
    | some (.plain l) => l
    | some (.byClass m) => (strsGet m cls.class_name).getD []
  let excludeSet := pySet exclude
  ((pySet columns).filter (fun c => !excludeSet.contains c), rename, excludeSet)

/-- `ConverterMixin.MAX_DEPTH`. -/
def MAX_DEPTH : Int := 5

/-- Converts the elements of a relationship collection, each of which
must be an entity; `conv` is the recursive `to_dict` call with the
already-decremented options.  A non-entity element crashes in Python. -/
def convList (conv : EntityType → PyDict → Except ConvError PyDict) :
    List PyVal → Except ConvError (List PyVal)
  | [] => .ok []
  | .ventity c vals :: rest => do
    let d ← conv c vals
    let r ← convList conv rest
    .ok (.vdict d :: r)
  | _ :: _ => .error .typeError

/-- The relationship loop of `to_dict`: for each requested relationship
the result entry defaults to `None`, lists convert element-wise and a
single entity converts recursively. -/
def convRels (conv : EntityType → PyDict → Except ConvError PyDict)
    (vals : PyDict) (rename : List (String × String)) :
    List String → PyDict → Except ConvError PyDict
  | [], acc => .ok acc
  | rel :: rest, acc =>
    let value := getattr vals rel
    let new_name := (renameGet rename rel).getD rel
    let acc := dictSet acc new_name .vnone
    match value with
    | .vnone => convRels conv vals rename rest acc
    | .vlist l => do
      let l' ← convList conv l
      convRels conv vals rename rest (dictSet acc new_name (.vlist l'))
    | .ventity c v => do
      let d ← conv c v
      convRels conv vals rename rest (dictSet acc new_name (.vdict d))
    | _ => .error .typeError

/-- Fuelled body of `ConverterMixin.to_dict`.  `default_depth` is the
`default_depth` value of the database config store.  The fuel argument
is a totality device only: the `to_dict` wrapper supplies
`depth.toNat + 1` and every recursive call decrements both the fuel and
the depth, so the fuel never runs out (see `to_dictF_fuel_irrelevant`
style lemmas proved below where needed). -/
def to_dictF (default_depth : Int) :
    Nat → EntityType → PyDict → ToDictOptions → Except ConvError PyDict
  | 0, _, _, _ => .error .typeError
  | fuel + 1, cls, vals, o =>
    let (requested_columns, rename, excluded_columns) := extract_conditions cls o
    let depth := o.depth.getD default_depth
    let all_attrs :=
      if o.exposed_only == SecureBool.SECURE_FALSE then all_attributes cls
      else all_exposed_attributes cls
    let relations :=
      if o.exposed_only == SecureBool.SECURE_FALSE then relationships cls
      else exposed_relationships cls
    let all_attrs := pySet all_attrs
    -- shared tail after column validation: split the requested names
    -- into scalar columns and relationships, fill the result dict with
    -- the scalar values, then (depth permitting) recurse
    let core := fun (requested : List String) =>
      let requested_relationships := requested.filter (fun c => relations.contains c)
      let scalars := requested.filter (fun c => !relations.contains c)
      let result := scalars.foldl
        (fun d col => dictSet d ((renameGet rename col).getD col) (getattr vals col)) []
      if depth > 0 && requested_relationships.length > 0 then
        if depth > MAX_DEPTH then
          .error .invalidDepth
        else
          let o' := { o with depth := some (depth - 1) }
          convRels (fun c v => to_dictF default_depth fuel c v o') vals rename
            requested_relationships result
      else
        .ok result
    if requested_columns.length > 0 then
      if (requested_columns.filter (fun c => !all_attrs.contains c)).length > 0 then
        .error .columnNotExisted
      else
        core requested_columns
    else
      core (all_attrs.filter (fun c => !excluded_columns.contains c))

/-- `ConverterMixin.to_dict`.  The fuel is fixed at `depth.toNat + 1`,
which is enough for the whole recursion because each nesting level
decrements the depth and recursion only happens at positive depth. -/
def to_dict (default_depth : Int) (cls : EntityType) (vals : PyDict)
    (o : ToDictOptions) : Except ConvError PyDict :=
  to_dictF default_depth ((o.depth.getD default_depth).toNat + 1) cls vals o

/-- `is SECURE_TRUE` test on an arbitrary runtime value. -/
def isSecureTrue : PyVal → Bool
  | .vsecure .SECURE_TRUE => true
  | _ => false

/-- `is SECURE_FALSE` test on an arbitrary runtime value. -/
def isSecureFalse : PyVal → Bool
  | .vsecure .SECURE_FALSE => true
  | _ => false

/-- The accessible column set of `ConverterMixin.from_dict`:
`accessible_pk + accessible_fk + accessible_columns +
accessible_relationships` as determined by the popped option values. -/
def from_dict_accessible (cls : EntityType) (exposed_only ignore_pk ignore_fk
    ignore_relationships : PyVal) : List String :=
  let accessible_columns :=
    if isSecureFalse exposed_only then exposed_columns cls ++ not_exposed_columns cls
    else exposed_columns cls
  let accessible_pk :=
    if isSecureFalse ignore_pk then
      if isSecureFalse exposed_only then primary_key_columns cls
      else exposed_primary_key_columns cls
    else []
  let accessible_fk :=
    if !isSecureTrue ignore_fk then
      if isSecureFalse exposed_only then foreign_key_columns cls
      else exposed_foreign_key_columns cls
    else []
  let accessible_relationships :=
    if isSecureFalse ignore_relationships then
      if isSecureFalse exposed_only then relationships cls
      else exposed_relationships cls
    else []
  accessible_pk ++ accessible_fk ++ accessible_columns ++ accessible_relationships

/-- The option-popping prelude of `ConverterMixin.from_dict`: pops the
option keywords out of the keyword dict (as the Python source does) and
returns the `ignore_invalid_column` value, the accessible column set
and the remaining keyword dict.  `populate_all=SECURE_TRUE` bypasses
the other switches. -/
def from_dict_prelude (cls : EntityType) (kwargs : PyDict) :
    PyVal × List String × PyDict :=
  let p1 := dictPop kwargs "ignore_invalid_column" (.vsecure .SECURE_TRUE)
  let ignore_invalid := p1.1
  let p2 := dictPop p1.2 "populate_all" (.vsecure .SECURE_FALSE)
  if isSecureTrue p2.1 then
    (ignore_invalid,
     from_dict_accessible cls (.vsecure .SECURE_FALSE) (.vsecure .SECURE_FALSE)
       (.vsecure .SECURE_FALSE) (.vsecure .SECURE_FALSE),
     p2.2)
  else
    let p3 := dictPop p2.2 "exposed_only" (.vsecure .SECURE_TRUE)
    let p4 := dictPop p3.2 "ignore_pk" (.vsecure .SECURE_TRUE)
    let p5 := dictPop p4.2 "ignore_fk" (.vsecure .SECURE_FALSE)
    let p6 := dictPop p5.2 "ignore_relationships" (.vsecure .SECURE_TRUE)
    (ignore_invalid, from_dict_accessible cls p3.1 p4.1 p5.1 p6.1, p6.2)

/-- `ConverterMixin.from_dict`.  The options are popped out of the very
keyword dict that carries the values (as in the Python source), then
the accessible column set is computed and the remaining accessible keys
are assigned onto the entity.  Returns the updated attribute values. -/
def from_dict (cls : EntityType) (vals : PyDict) (kwargs : PyDict) :
    Except ConvError PyDict :=
  let pre := from_dict_prelude cls kwargs
  let provided_columns := pre.2.2.map (fun p => p.1)
  let result_columns :=
    (pySet pre.2.1).filter (fun c => provided_columns.contains c)
  if isSecureFalse pre.1 &&
      (provided_columns.filter (fun c => !pre.2.1.contains c)).length > 0 then
    .error .columnNotExisted
  else
    .ok (result_columns.foldl
      (fun acc col => setattr acc col ((dictGet pre.2.2 col).getD .vnone)) vals)

/-- The keyword-option names popped by `from_dict`. -/
def fromDictOptionKeys : List String :=
  ["ignore_invalid_column", "populate_all", "exposed_only", "ignore_pk",
   "ignore_fk", "ignore_relationships"]

/-! ## Admin page (`pyrin.admin.page.base`) -/

/-- A value appearing in `list_fields` / `list_temp_fields`: a column
attribute or expression-level hybrid property (an object with a `key`,
`_is_valid_field`), a plain string (candidate method name), or any
other invalid object. -/
inductive AdminField where
  | attrF (key : String)
  | strF (s : String)
  | invalidF
deriving DecidableEq, Repr

/-- The class-level configuration of an `AdminPage` subclass, restricted
to the pieces the verified behaviour depends on.  `entity` is `none`
when the configured entity is not a `BaseEntity` subclass; `methods`
lists the names that resolve to callables on the page
(`_is_valid_method`). -/
structure AdminPageCfg where
  entity : Option EntityType := none
  register_name : Option String := none
  name : Option String := none
  list_fields : List AdminField := []
  list_temp_fields : List AdminField := []
  list_only_readable : Bool := true
  list_pk : Bool := true
  list_fk : Bool := true
  list_expression_level_hybrid_properties : Bool := true
  get_permission : Bool := true
  create_permission : Bool := true
  update_permission : Bool := true
  remove_permission : Bool := true
  methods : List String := []
deriving DecidableEq, Repr

/-- Errors raised by `AdminPage.__init__`. -/
inductive AdminInitError where
  | invalidAdminEntityType
  | adminRegisterNameRequired
  | adminNameRequired
  | invalidListField
  | listFieldRequired
deriving DecidableEq, Repr

/-- Python `str.isspace()`: non-empty and all whitespace. -/
def pyIsSpace (s : String) : Bool :=
  !s.data.isEmpty && s.data.all (fun c => c.isWhitespace)

/-- Modelled from the spec: `readable_columns` (implemented outside the
provided sources) — the plain (non-pk, non-fk) columns of the entity
that are readable, per the spec's "Default field set: primary keys,
foreign keys, plain columns, and computed properties, filtered by
readability". -/
def readable_columns (e : EntityType) : List String :=
  (e.column_attrs.filter (fun a =>
    a.is_foreign_key == false && a.primary_key == false && a.readable)).map
      (fun a => a.key)

/-- Modelled from the spec: `readable_primary_key_columns`
(implemented outside the provided sources). -/
def readable_primary_key_columns (e : EntityType) : List String :=
  (e.pk_attrs.filter (fun a => a.readable)).map (fun a => a.key)

/-- Modelled from the spec: `readable_foreign_key_columns`
(implemented outside the provided sources). -/
def readable_foreign_key_columns (e : EntityType) : List String :=
  (e.column_attrs.filter (fun a => a.is_foreign_key && a.readable)).map
    (fun a => a.key)

/-- Modelled from the spec: `expression_level_hybrid_properties`
(implemented outside the provided sources) — the computed (hybrid)
properties usable in queries. -/
def expression_level_hybrid_properties (e : EntityType) : List String :=
  e.hybrid_property_keys

/-- `AdminPage._get_default_list_fields`: primary keys, then foreign
keys, then plain columns, then expression-level hybrid properties of
the entity, honouring the `list_only_readable` / `list_pk` / `list_fk`
/ `list_expression_level_hybrid_properties` switches; every produced
field is an attribute object (`entity.get_attribute(name)`). -/
def get_default_list_fields (cfg : AdminPageCfg) (e : EntityType) : List AdminField :=
  let column_names :=
    if cfg.list_only_readable then readable_columns e else all_columns e
  let primary_key_names :=
    if cfg.list_pk then
      if cfg.list_only_readable then readable_primary_key_columns e
      else primary_key_columns e
    else []
  let foreign_key_names :=
    if cfg.list_fk then
      if cfg.list_only_readable then readable_foreign_key_columns e
      else foreign_key_columns e
    else []
  let hybrid_names :=
    if cfg.list_expression_level_hybrid_properties then
      expression_level_hybrid_properties e
    else []
  (primary_key_names ++ foreign_key_names ++ column_names ++ hybrid_names).map
    (fun n => AdminField.attrF n)

/-- `AdminPage._is_valid_field`: the field has a `key` attribute. -/
def is_valid_field : AdminField → Bool
  | .attrF _ => true
  | _ => false

/-- `AdminPage._is_valid_method`. -/
def is_valid_method (cfg : AdminPageCfg) (name : String) : Bool :=
  cfg.methods.contains name

/-- `AdminPage._extract_field_names`. -/
def extract_field_names (cfg : AdminPageCfg) (fields : List AdminField)
    (allow_string : Bool) : Except AdminInitError (List String) :=
  match fields with
  | [] => .ok []
  | f :: rest => do
    let name ←
      match f with
      | .attrF k => Except.ok k
      | .strF s =>
        if allow_string && is_valid_method cfg s then Except.ok s
        else Except.error AdminInitError.invalidListField
      | .invalidF => Except.error AdminInitError.invalidListField
    let others ← extract_field_names cfg rest allow_string
    .ok (name :: others)

/-- `AdminPage._get_list_field_names`. -/
def get_list_field_names (cfg : AdminPageCfg) (e : EntityType) :
    Except AdminInitError (List String) :=
  let all_fields :=
    if cfg.list_fields.isEmpty then get_default_list_fields cfg e
    else cfg.list_fields
  extract_field_names cfg all_fields true

/-- `AdminPage._get_list_temp_field_names`. -/
def get_list_temp_field_names (cfg : AdminPageCfg) :
    Except AdminInitError (List String) :=
  extract_field_names cfg cfg.list_temp_fields false

/-- `AdminPage._get_list_fields`: the column/hybrid members of
`list_fields`, or the default fields when none are configured. -/
def get_list_fields (cfg : AdminPageCfg) (e : EntityType) : List AdminField :=
  if cfg.list_fields.isEmpty then get_default_list_fields cfg e
  else cfg.list_fields.filter (fun f => is_valid_field f)

/-- `AdminPage._get_list_temp_fields`. -/
def get_list_temp_fields (cfg : AdminPageCfg) : List AdminField :=
  cfg.list_temp_fields.filter (fun f => is_valid_field f)

/-- `AdminPage._get_selectable_fields`: list fields plus list temp
fields; empty is a `ListFieldRequiredError`. -/
def get_selectable_fields (cfg : AdminPageCfg) (e : EntityType) :
    Except AdminInitError (List AdminField) :=
  let results := get_list_fields cfg e ++ get_list_temp_fields cfg
  if results.length ≤ 0 then .error .listFieldRequired
  else .ok results

/-- A successfully constructed admin page: its entity, configuration
and the selectable fields cached during `__init__`. -/
structure AdminPage where
  entity : EntityType
  cfg : AdminPageCfg
  selectable_fields : List AdminField
deriving DecidableEq, Repr

/-- `AdminPage.__init__`: validates the entity, the register name and
the name, then populates the caches — `_get_list_field_names`,
`_get_list_temp_field_names` and `_get_selectable_fields` — so that
every configuration error (including `ListFieldRequiredError`)
surfaces during construction. -/
def initAdminPage (cfg : AdminPageCfg) : Except AdminInitError AdminPage :=
  match cfg.entity with
  | none => .error .invalidAdminEntityType
  | some e =>
    match cfg.register_name with
    | none => .error .adminRegisterNameRequired
    | some rn =>
      if rn == "" || pyIsSpace rn then .error .adminRegisterNameRequired
      else
        match cfg.name with
        | none => .error .adminNameRequired
        | some nm =>
          if nm == "" || pyIsSpace nm then .error .adminNameRequired
          else do
            let _ ← get_list_field_names cfg e
            let _ ← get_list_temp_field_names cfg
            let sel ← get_selectable_fields cfg e
            .ok { entity := e, cfg := cfg, selectable_fields := sel }

/-- `AdminPage._has_single_primary_key`. -/
def has_single_primary_key (e : EntityType) : Bool :=
  (primary_key_columns e).length == 1

/-- `AdminPage.has_get_permission`. -/
def has_get_permission (p : AdminPage) : Bool :=
  has_single_primary_key p.entity && p.cfg.get_permission

/-- `AdminPage.has_create_permission`. -/
def has_create_permission (p : AdminPage) : Bool :=
  p.cfg.create_permission

/-- `AdminPage.has_update_permission`. -/
def has_update_permission (p : AdminPage) : Bool :=
  has_single_primary_key p.entity && p.cfg.update_permission

/-- `AdminPage.has_remove_permission`. -/
def has_remove_permission (p : AdminPage) : Bool :=
  has_single_primary_key p.entity && p.cfg.remove_permission

/-! ## Admin manager registries (`pyrin.admin.manager`) -/

/-- A registered admin page as the manager sees it: an object identity
(distinguishing two page instances), the configured register name and
the entity class it is bound to (entity classes are identified by
name). -/
structure PageRef where
  id : Nat
  register_name : String
  entity : String
deriving DecidableEq, Repr

/-- `str.lower()` (character-wise lowering). -/
def pyLower (s : String) : String :=
  String.mk (s.data.map (fun c => c.toLower))

/-- `AdminPage.get_register_name`: the lower-cased register name. -/
def PageRef.get_register_name (p : PageRef) : String :=
  pyLower p.register_name

/-- The two registries of `AdminManager`: register-name-indexed and
entity-indexed admin pages. -/
structure AdminState where
  pages : List (String × PageRef)
  entities : List (String × PageRef)
deriving DecidableEq, Repr

/-- `dict.pop(k, None)` on a registry. -/
def popRef (l : List (String × PageRef)) (k : String) :
    Option PageRef × List (String × PageRef) :=
  match l.find? (fun p => p.1 == k) with
  | some pr => (some pr.2, l.eraseP (fun p => p.1 == k))
  | none => (none, l)

/-- Registry assignment `d[k] = v`. -/
def setRef (l : List (String × PageRef)) (k : String) (v : PageRef) :
    List (String × PageRef) :=
  if l.any (fun p => p.1 == k) then
    l.map (fun p => if p.1 == k then (k, v) else p)
  else
    l ++ [(k, v)]

/-- The mutually recursive state effect of
`AdminManager._remove_from_pages` / `_remove_from_entities`, merged
into one function: `fromPages = true` pops `key` from the page registry
and chases the found page's entity, `fromPages = false` pops `key` from
the entity registry and chases the found page's register name.  The
fuel is a totality device: each recursive step removes one registry
entry, so the wrappers below supply fuel that cannot run out. -/
def removeRefAux : Nat → Bool → AdminState → String → AdminState
  | 0, _, s, _ => s
  | fuel + 1, fromPages, s, key =>
    if fromPages then
      match popRef s.pages key with
      | (some instance_, pages') =>
        removeRefAux fuel false { s with pages := pages' } instance_.entity
      | (none, _) => s
    else
      match popRef s.entities key with
      | (some instance_, entities') =>
        removeRefAux fuel true { s with entities := entities' }
          instance_.get_register_name
      | (none, _) => s

/-- `AdminManager._remove_from_pages` (state effect). -/
def remove_from_pages (s : AdminState) (register_name : String) : AdminState :=
  removeRefAux (s.pages.length + s.entities.length + 1) true s register_name

/-- `AdminManager._remove_from_entities` (state effect). -/
def remove_from_entities (s : AdminState) (entity : String) : AdminState :=
  removeRefAux (s.pages.length + s.entities.length + 1) false s entity

/-- Errors raised by `AdminManager.register`. -/
inductive RegisterError where
  | invalidAdminPageType
  | duplicatedAdminPage
deriving DecidableEq, Repr

/-- `AdminManager.register`: duplicate register name or duplicate
entity without `replace=True` raises `DuplicatedAdminPageError` before
any mutation; with `replace=True` the old page is removed from both
registries before the new page is stored in both. -/
def register (s : AdminState) (inst : PageRef) (replace : Bool) :
    Option RegisterError × AdminState :=
  let name := inst.get_register_name
  if s.pages.any (fun p => p.1 == name) && !replace then
    (some .duplicatedAdminPage, s)
  else
    let s1 := if s.pages.any (fun p => p.1 == name) then
        remove_from_pages s name
      else s
    if s1.entities.any (fun p => p.1 == inst.entity) && !replace then
      (some .duplicatedAdminPage, s1)
    else
      let s2 := if s1.entities.any (fun p => p.1 == inst.entity) then
          remove_from_entities s1 inst.entity
        else s1
      (none, { pages := setRef s2.pages name inst,
               entities := setRef s2.entities inst.entity inst })

/-- Registry lookup `d.get(k)`. -/
def lookupRef (l : List (String × PageRef)) (k : String) : Option PageRef :=
  (l.find? (fun p => p.1 == k)).map (fun p => p.2)

/-- The keys of a registry, in order. -/
abbrev refKeys (l : List (String × PageRef)) : List String :=
  l.map (fun p => p.1)

/-- The invariant `AdminManager` maintains over its two registries:
keys are unique in each registry (Python dicts cannot hold a key
twice), every page is stored under its own register name
(resp. entity), and the registries mirror each other: a page
registered under its name is also registered under its entity and
vice versa. -/
abbrev Consistent (s : AdminState) : Prop :=
  (refKeys s.pages).Nodup ∧ (refKeys s.entities).Nodup ∧
  (∀ p ∈ s.pages, p.2.get_register_name = p.1) ∧
  (∀ p ∈ s.entities, p.2.entity = p.1) ∧
  (∀ p ∈ s.pages, (p.2.entity, p.2) ∈ s.entities) ∧
  (∀ p ∈ s.entities, (p.2.get_register_name, p.2) ∈ s.pages)

/-! ## PBKDF2 hashing handler (`pyrin.security.hashing.handlers.pbkdf2`) -/

/-- Byte strings, one `Nat` per byte. -/
abbrev Bytes := List Nat

/-- The separator byte `b'$'`. -/
def SEP : Nat := 36

/-- UTF-8-irrelevant ASCII encoding of the identifier strings used in
the hash format. -/
def encodeStr (s : String) : Bytes :=
  s.data.map (fun c => c.toNat)

/-- `PBKDF2Hashing._get_algorithm()` encoded: `b'PBKDF2'`. -/
def handlerName : Bytes := encodeStr "PBKDF2"

/-- `PBKDF2Hashing._format`. -/
def pbkdf2_format : String :=
  "$handler_name$internal_algorithm$rounds$salt_length$salt-text_hash"

/-- `self._format.count('$')` (equals 5). -/
def separator_count : Nat :=
  (pbkdf2_format.data.filter (fun c => c == '$')).length

/-- Little-endian decimal digit bytes of `n`; the fuel is `n` itself,
which suffices since `n / 10 < n` for positive `n`. -/
def natToDecBytesAux : Nat → Nat → Bytes
  | 0, _ => []
  | _, 0 => []
  | fuel + 1, n => (n % 10 + 48) :: natToDecBytesAux fuel (n / 10)

/-- `str(n).encode()` for a natural number. -/
def natToDecBytes (n : Nat) : Bytes :=
  if n = 0 then [48] else (natToDecBytesAux n n).reverse

/-- `str(i).encode()` for an integer. -/
def intToDecBytes (i : Int) : Bytes :=
  if i < 0 then 45 :: natToDecBytes i.natAbs else natToDecBytes i.toNat

/-- Is the byte an ASCII decimal digit? -/
def isDigitByte (b : Nat) : Bool :=
  48 ≤ b && b ≤ 57

/-- Value of a big-endian digit-byte string. -/
def decValue (l : Bytes) : Nat :=
  l.foldl (fun acc b => 10 * acc + (b - 48)) 0

/-- `int(bytes)` on an unsigned decimal literal: every byte must be a
digit and the string must be non-empty, else Python raises
`ValueError`. -/
def parseNatBytes (l : Bytes) : Option Nat :=
  if !l.isEmpty && l.all isDigitByte then some (decValue l) else none

/-- `int(bytes)` including a leading minus sign.  (Python's `int()`
also tolerates surrounding whitespace, a `+` sign and underscores;
none of those occur in well-formed hash fields and the malformed
inputs used below are non-numeric either way.) -/
def parseIntBytes (l : Bytes) : Option Int :=
  if l.head? = some 45 then (parseNatBytes l.tail).map (fun n => -(n : Int))
  else (parseNatBytes l).map (fun n => (n : Int))

/-- `bytes.count(b'$')`. -/
def countSep (l : Bytes) : Nat :=
  (l.filter (fun b => b == SEP)).length

/-- `bytes.split(b'$', maxsplit)`: split on the separator at most
`maxsplit` times, the remainder staying in one piece. -/
def splitSep : Nat → Bytes → List Bytes
  | 0, l => [l]
  | maxsplit + 1, l =>
    let pre := l.takeWhile (fun b => !(b == SEP))
    match l.dropWhile (fun b => !(b == SEP)) with
    | [] => [l]
    | _ :: tail => pre :: splitSep maxsplit tail

/-- Python slice index resolution for `b[:k]` / `b[k:]` (negative
indices count from the end, clamped). -/
def pySliceIdx (len : Nat) (k : Int) : Nat :=
  if 0 ≤ k then min k.toNat len else len - min len k.natAbs

/-- `b'$'.join(parts)`. -/
def joinSep : List Bytes → Bytes
  | [] => []
  | [x] => x
  | x :: y :: rest => x ++ SEP :: joinSep (y :: rest)

/-- `PBKDF2Hashing._make_final_hash`:
`b'$' + b'$'.join([b'PBKDF2', alg, str(rounds), str(len(salt)), salt + text_hash])`. -/
def make_final_hash (internal_algorithm : Bytes) (rounds : Int)
    (salt : Bytes) (text_hash : Bytes) : Bytes :=
  SEP :: joinSep
    [handlerName, internal_algorithm, intToDecBytes rounds,
     natToDecBytes salt.length, salt ++ text_hash]

/-- Errors of the hashing handler; `valueError` models the uncaught
`ValueError` Python raises when `int()` meets a non-numeric field. -/
inductive HashError where
  | invalidPBKDF2Hash
  | invalidHashingHandler
  | invalidAlgorithm
  | invalidRounds
  | invalidSaltLength
  | valueError
deriving DecidableEq, Repr

/-- `PBKDF2Hashing._extract_parts_from_final_hash`. -/
def extract_parts_from_final_hash (full : Bytes) :
    Except HashError (Bytes × Int × Bytes × Bytes) :=
  if countSep full < separator_count || !(full.head? == some SEP) then
    .error .invalidPBKDF2Hash
  else
    match splitSep separator_count full with
    | [_empty, handler, internal_algorithm, rounds, salt_length, salt_plus_text_hash] =>
      if !(handler == handlerName) then
        .error .invalidHashingHandler
      else
        match parseIntBytes salt_length with
        | none => .error .valueError
        | some sl =>
          let salt := salt_plus_text_hash.take (pySliceIdx salt_plus_text_hash.length sl)
          let text_hash := salt_plus_text_hash.drop (pySliceIdx salt_plus_text_hash.length sl)
          match parseIntBytes rounds with
          | none => .error .valueError
          | some r => .ok (internal_algorithm, r, salt, text_hash)
    | _ =>
      -- unreachable: `countSep full ≥ separator_count` forces exactly
      -- `separator_count + 1` pieces
      .error .invalidPBKDF2Hash

/-- `hashlib.algorithms_guaranteed`, encoded. -/
def algorithms_guaranteed : List Bytes :=
  ["md5", "sha1", "sha224", "sha256", "sha384", "sha512",
   "blake2b", "blake2s", "sha3_224", "sha3_256", "sha3_384", "sha3_512",
   "shake_128", "shake_256"].map encodeStr

/-- `PBKDF2Hashing._validate_attributes`. -/
def validate_attributes (internal_algorithm : Bytes) (rounds : Int)
    (salt_length : Int) : Except HashError Unit :=
  if !(algorithms_guaranteed.contains internal_algorithm) then
    .error .invalidAlgorithm
  else if rounds < 1 then
    .error .invalidRounds
  else if salt_length < 1 then
    .error .invalidSaltLength
  else
    .ok ()

/-- The `security.hashing` config values read by the handler. -/
structure HashConfig where
  pbkdf2_internal_algorithm : Bytes
  pbkdf2_rounds : Int
  pbkdf2_salt_length : Int
deriving Repr

/-- `PBKDF2Hashing.generate_hash`.  `hmac` is the external
`hashlib.pbkdf2_hmac(algorithm, text, salt, rounds)` and
`random_bytes` the external salt generator, both outside this
repository. -/
def generate_hash (hmac : Bytes → Bytes → Bytes → Int → Bytes)
    (random_bytes : Int → Bytes) (cfg : HashConfig) (text : Bytes)
    (internal_algorithm : Option Bytes) (rounds : Option Int)
    (salt : Option Bytes) (salt_length : Option Int) : Except HashError Bytes := do
  let alg := internal_algorithm.getD cfg.pbkdf2_internal_algorithm
  let r := rounds.getD cfg.pbkdf2_rounds
  let sl := salt_length.getD cfg.pbkdf2_salt_length
  let _ ← validate_attributes alg r sl
  let s := match salt with
    | some s => s
    | none => random_bytes sl
  let text_hash := hmac alg text s r
  .ok (make_final_hash alg r s text_hash)

/-- The exception classes caught by `is_match`; the `ValueError` from
`int()` is not among them. -/
def caughtByIsMatch : HashError → Bool
  | .valueError => false
  | _ => true

/-- `PBKDF2Hashing.is_match`: extract the parts, re-hash the candidate
text with the extracted parameters, compare; the handler's own
validation errors yield `False`, anything else propagates. -/
def is_match (hmac : Bytes → Bytes → Bytes → Int → Bytes)
    (random_bytes : Int → Bytes) (cfg : HashConfig)
    (text : Bytes) (full_hashed_value : Bytes) : Except HashError Bool :=
  match extract_parts_from_final_hash full_hashed_value with
  | .error e => if caughtByIsMatch e then .ok false else .error e
  | .ok (internal_algorithm, rounds, salt, _text_hash) =>
    match generate_hash hmac random_bytes cfg text (some internal_algorithm)
        (some rounds) (some salt) none with
    | .error e => if caughtByIsMatch e then .ok false else .error e
    | .ok new_full => .ok (full_hashed_value == new_full)

/-! ## Concrete fixtures for witnesses and counterexamples -/

/-- An entity with a two-column (composite) primary key. -/
def entC5 : EntityType :=
  { class_name := "OrderLine",
    column_attrs :=
      [{ key := "order_id", is_foreign_key := false, primary_key := true,
         exposed := true, readable := true },
       { key := "line_no", is_foreign_key := false, primary_key := true,
         exposed := true, readable := true }],
    relationship_keys := [], hybrid_property_keys := [] }

/-- An admin page on `entC5` with every permission flag enabled. -/
def pageC5 : AdminPage :=
  { entity := entC5,
    cfg := { entity := some entC5, register_name := some "orderline",
             name := some "Order Line" },
    selectable_fields := [.attrF "order_id"] }

/-- An entity with a single exposed primary key and one plain column. -/
def entC9 : EntityType :=
  { class_name := "City",
    column_attrs :=
      [{ key := "id", is_foreign_key := false, primary_key := true,
         exposed := true, readable := true },
       { key := "name", is_foreign_key := false, primary_key := false,
         exposed := true, readable := true }],
    relationship_keys := [], hybrid_property_keys := [] }


/-- A well-formed entity exercising every attribute category, with both
exposed and not-exposed members. -/
def entC1 : EntityType :=
  { class_name := "Person",
    column_attrs :=
      [{ key := "id", is_foreign_key := false, primary_key := true,
         exposed := true, readable := true },
       { key := "city_id", is_foreign_key := true, primary_key := false,
         exposed := true, readable := true },
       { key := "name", is_foreign_key := false, primary_key := false,
         exposed := true, readable := true },
       { key := "secret", is_foreign_key := false, primary_key := false,
         exposed := false, readable := false },
       { key := "_internal", is_foreign_key := false, primary_key := false,
         exposed := true, readable := false }],
    relationship_keys := ["addresses", "_private_rel"],
    hybrid_property_keys := ["full_name", "_hidden_prop"] }

/-- An entity whose only relationship is not exposed. -/
def entC2 : EntityType :=
  { class_name := "Lone", column_attrs := [],
    relationship_keys := ["_rel"], hybrid_property_keys := [] }

/-- A valid admin page configuration over `entC2` whose default list
fields resolve to nothing. -/
def cfgC7 : AdminPageCfg :=
  { entity := some entC2, register_name := some "lone", name := some "Lone" }

/-- An entity with one exposed primary key and one exposed plain
column. -/
def entC3 : EntityType :=
  { class_name := "Tag",
    column_attrs :=
      [{ key := "id", is_foreign_key := false, primary_key := true,
         exposed := true, readable := true },
       { key := "label", is_foreign_key := false, primary_key := false,
         exposed := true, readable := true }],
    relationship_keys := [], hybrid_property_keys := [] }

/-- Fixture: a first admin page bound to `UserEntity`. -/
def pgC6a : PageRef := ⟨1, "Users", "UserEntity"⟩

/-- Fixture: a second admin page with the same register name. -/
def pgC6b : PageRef := ⟨2, "Users", "UserEntity2"⟩

/-- Fixture: the manager state with `pgC6a` registered. -/
def stC6 : AdminState :=
  { pages := [("users", pgC6a)], entities := [("UserEntity", pgC6a)] }

/-! ## Helper lemmas about dicts and caching -/

theorem beq_false_of_ne {k k' : String} (h : k' ≠ k) : (k' == k) = false :=
  beq_eq_false_iff_ne.mpr h

theorem find?_map_set_self (d : PyDict) (k : String) (v : PyVal) :
    (d.map (fun p => if p.1 == k then (k, v) else p)).find? (fun p => p.1 == k) =
      if d.any (fun p => p.1 == k) then some (k, v) else none := by
  induction d with
  | nil => rfl
  | cons hd tl ih =>
    by_cases hk : hd.1 = k
    · simp [hk, ih, -List.find?_map]
    · have hb : (hd.1 == k) = false := beq_eq_false_iff_ne.mpr hk
      simp only [beq_iff_eq] at ih
      simp [hk, ih, -List.find?_map]
      rw [hb, Bool.false_or]

theorem find?_map_set_ne (d : PyDict) (k k' : String) (v : PyVal) (h : k' ≠ k) :
    (d.map (fun p => if p.1 == k then (k, v) else p)).find? (fun p => p.1 == k') =
      d.find? (fun p => p.1 == k') := by
  have hkk : ¬k = k' := fun hkk => h hkk.symm
  induction d with
  | nil => rfl
  | cons hd tl ih =>
    by_cases hk : hd.1 = k
    · have h2 : ¬hd.1 = k' := by rw [hk]; exact hkk
      simp only [beq_iff_eq] at ih
      simp [hk, h2, hkk, ih, -List.find?_map]
    · by_cases hk' : hd.1 = k'
      · simp [hk, hk', h, hkk, -List.find?_map]
      · simp only [beq_iff_eq] at ih
        simp [hk, hk', ih, -List.find?_map]

theorem dictGet_dictSet_self (d : PyDict) (k : String) (v : PyVal) :
    dictGet (dictSet d k v) k = some v := by
  unfold dictGet dictSet
  by_cases h : d.any (fun p => p.1 == k)
  · rw [if_pos h, find?_map_set_self, if_pos h]
    rfl
  · rw [if_neg h, List.find?_append]
    have hnone : d.find? (fun p => p.1 == k) = none := by
      rw [List.find?_eq_none]
      intro p hp hc
      exact h (List.any_eq_true.mpr ⟨p, hp, hc⟩)
    rw [hnone]
    simp

theorem dictGet_dictSet_ne (d : PyDict) (k k' : String) (v : PyVal) (h : k' ≠ k) :
    dictGet (dictSet d k v) k' = dictGet d k' := by
  unfold dictGet dictSet
  by_cases hany : d.any (fun p => p.1 == k)
  · rw [if_pos hany, find?_map_set_ne d k k' v h]
  · rw [if_neg hany, List.find?_append]
    cases hf : d.find? (fun p => p.1 == k') with
    | some q => simp
    | none =>
      simp only [Option.none_or]
      rw [List.find?_cons_of_neg _ (by simp; exact fun hkk => h (Eq.symm hkk))]
      rfl

theorem getattr_setattr_ne (d : PyDict) (k k' : String) (v : PyVal) (h : k' ≠ k) :
    getattr (setattr d k v) k' = getattr d k' := by
  unfold getattr setattr
  rw [dictGet_dictSet_ne d k k' v h]

theorem dictGet_nil (k : String) : dictGet [] k = none := rfl

/-- A `local_cached` cell returns the first-computed value forever. -/
theorem cachedRead_eq_first {α : Type} (f : Nat → α) (n : Nat) :
    cachedRead f n = (f 0, some (f 0)) := by
  induction n with
  | zero => rfl
  | succ n ih => unfold cachedRead readCached; rw [ih]

/-! ## C5 -/

/-- C5: for every admin page whose entity has a composite primary key
(primary-key column count different from one), `has_get_permission`,
`has_update_permission` and `has_remove_permission` all return `False`,
regardless of the configured permission flags. -/
theorem C5_composite_pk_disables_permissions (p : AdminPage)
    (h : (primary_key_columns p.entity).length ≠ 1) :
    has_get_permission p = false ∧ has_update_permission p = false ∧
      has_remove_permission p = false := by
  have hb : has_single_primary_key p.entity = false := by
    unfold has_single_primary_key
    exact beq_eq_false_iff_ne.mpr h
  simp [has_get_permission, has_update_permission, has_remove_permission, hb]

theorem C5_witness :
    (primary_key_columns pageC5.entity).length ≠ 1 ∧
    (has_get_permission pageC5 = false ∧ has_update_permission pageC5 = false ∧
      has_remove_permission pageC5 = false) :=
  ⟨by decide, C5_composite_pk_disables_permissions pageC5 (by decide)⟩

/-! ## C9 -/

/-- C9: `primary_key` returns `None` when the entity type has no
primary-key columns (even with `as_tuple=True`); with exactly one
primary-key column and `as_tuple=False` it returns the bare column
value; otherwise it returns the tuple of values in
`primary_key_columns` order. -/
theorem C9_primary_key_result (cls : EntityType) (vals : PyDict) (as_tuple : Bool) :
    (primary_key_columns cls = [] → primary_key cls vals as_tuple = .noneV) ∧
    (∀ c, primary_key_columns cls = [c] → as_tuple = false →
      primary_key cls vals as_tuple = .single (getattr vals c)) ∧
    (primary_key_columns cls ≠ [] →
      ((primary_key_columns cls).length ≠ 1 ∨ as_tuple = true) →
      primary_key cls vals as_tuple =
        .tupleV ((primary_key_columns cls).map (fun col => getattr vals col))) := by
  refine ⟨?_, ?_, ?_⟩
  · intro h
    simp only [primary_key]
    rw [h]
  · intro c h hf
    simp only [primary_key]
    rw [h, hf]
    simp
  · intro hne hcond
    simp only [primary_key]
    cases hcols : primary_key_columns cls with
    | nil => exact absurd hcols hne
    | cons c rest =>
      rcases hcond with h1 | h1
      · have hr : (rest.length == 0) = false := by
          rw [hcols] at h1
          simp only [List.length_cons] at h1
          have : rest.length ≠ 0 := by omega
          exact beq_eq_false_iff_ne.mpr this
        simp [hr]
      · rw [h1]
        simp

/-- C9 witness: a single-primary-key entity yields the bare value, and
the tuple shape on `as_tuple=True`. -/
theorem C9_witness :
    primary_key_columns entC9 = ["id"] ∧
    primary_key entC9 [("id", .vint 5)] false = .single (getattr [("id", .vint 5)] "id") ∧
    primary_key entC9 [("id", .vint 5)] true =
      .tupleV ((primary_key_columns entC9).map
        (fun col => getattr [("id", .vint 5)] col)) :=
  ⟨by decide,
   (C9_primary_key_result entC9 [("id", .vint 5)] false).2.1 "id" (by decide) rfl,
   (C9_primary_key_result entC9 [("id", .vint 5)] true).2.2 (by decide) (Or.inr rfl)⟩

/-! ## C1 -/

theorem mem_exposed_pk_sub {e : EntityType} {x : String}
    (h : x ∈ exposed_primary_key_columns e) :
    ∃ a, a ∈ e.column_attrs ∧ a.key = x ∧ is_exposed x = true ∧ a.exposed = true := by
  unfold exposed_primary_key_columns EntityType.pk_attrs at h
  simp only [List.mem_map, List.mem_filter, Bool.and_eq_true] at h
  obtain ⟨a, ⟨⟨ha, hpk⟩, hex, hexp⟩, rfl⟩ := h
  exact ⟨a, ha, rfl, hex, hexp⟩

theorem mem_exposed_fk_sub {e : EntityType} {x : String}
    (h : x ∈ exposed_foreign_key_columns e) :
    ∃ a, a ∈ e.column_attrs ∧ a.key = x ∧ is_exposed x = true ∧ a.exposed = true := by
  unfold exposed_foreign_key_columns at h
  simp only [List.mem_map, List.mem_filter, Bool.and_eq_true] at h
  obtain ⟨a, ⟨ha, ⟨hfk, hex⟩, hexp⟩, rfl⟩ := h
  exact ⟨a, ha, rfl, hex, hexp⟩

theorem mem_exposed_cols_sub {e : EntityType} {x : String}
    (h : x ∈ exposed_columns e) :
    ∃ a, a ∈ e.column_attrs ∧ a.key = x ∧ is_exposed x = true ∧ a.exposed = true := by
  unfold exposed_columns at h
  simp only [List.mem_map, List.mem_filter, Bool.and_eq_true] at h
  obtain ⟨a, ⟨ha, ⟨⟨hex, hfk⟩, hpk⟩, hexp⟩, rfl⟩ := h
  exact ⟨a, ha, rfl, hex, hexp⟩

theorem mem_not_exposed_pk_sub {e : EntityType} {x : String}
    (h : x ∈ not_exposed_primary_key_columns e) :
    ∃ a, a ∈ e.column_attrs ∧ a.key = x ∧
      (is_exposed x = false ∨ a.exposed = false) := by
  unfold not_exposed_primary_key_columns EntityType.pk_attrs at h
  simp only [List.mem_map, List.mem_filter, Bool.and_eq_true, Bool.or_eq_true,
    beq_iff_eq] at h
  obtain ⟨a, ⟨⟨ha, hpk⟩, hcond⟩, rfl⟩ := h
  exact ⟨a, ha, rfl, hcond⟩

theorem mem_not_exposed_fk_sub {e : EntityType} {x : String}
    (h : x ∈ not_exposed_foreign_key_columns e) :
    ∃ a, a ∈ e.column_attrs ∧ a.key = x ∧
      (is_exposed x = false ∨ a.exposed = false) := by
  unfold not_exposed_foreign_key_columns at h
  simp only [List.mem_map, List.mem_filter, Bool.and_eq_true, Bool.or_eq_true,
    beq_iff_eq] at h
  obtain ⟨a, ⟨ha, hfk, hcond⟩, rfl⟩ := h
  exact ⟨a, ha, rfl, hcond⟩

theorem mem_not_exposed_cols_sub {e : EntityType} {x : String}
    (h : x ∈ not_exposed_columns e) :
    ∃ a, a ∈ e.column_attrs ∧ a.key = x ∧
      (is_exposed x = false ∨ a.exposed = false) := by
  unfold not_exposed_columns at h
  simp only [List.mem_map, List.mem_filter, Bool.and_eq_true, Bool.or_eq_true,
    Bool.not_eq_true', beq_iff_eq] at h
  obtain ⟨a, ⟨ha, ⟨hcond, hfk⟩, hpk⟩, rfl⟩ := h
  exact ⟨a, ha, rfl, hcond⟩

theorem mem_all_exposed_attributes {e : EntityType} {x : String}
    (hx : x ∈ all_exposed_attributes e) :
    (∃ a, a ∈ e.column_attrs ∧ a.key = x ∧ is_exposed x = true ∧ a.exposed = true) ∨
    (x ∈ e.relationship_keys ∧ is_exposed x = true) ∨
    (x ∈ e.hybrid_property_keys ∧ is_exposed x = true) := by
  unfold all_exposed_attributes at hx
  simp only [List.mem_append] at hx
  rcases hx with ((((h | h) | h) | h) | h)
  · exact Or.inl (mem_exposed_pk_sub h)
  · exact Or.inl (mem_exposed_fk_sub h)
  · exact Or.inl (mem_exposed_cols_sub h)
  · unfold exposed_relationships at h
    simp only [List.mem_filter] at h
    exact Or.inr (Or.inl h)
  · unfold exposed_hybrid_properties at h
    simp only [List.mem_filter] at h
    exact Or.inr (Or.inr h)

theorem mem_all_not_exposed_attributes {e : EntityType} {x : String}
    (hx : x ∈ all_not_exposed_attributes e) :
    (∃ a, a ∈ e.column_attrs ∧ a.key = x ∧
      (is_exposed x = false ∨ a.exposed = false)) ∨
    (x ∈ e.relationship_keys ∧ is_exposed x = false) ∨
    (x ∈ e.hybrid_property_keys ∧ is_exposed x = false) := by
  unfold all_not_exposed_attributes at hx
  simp only [List.mem_append] at hx
  rcases hx with ((((h | h) | h) | h) | h)
  · exact Or.inl (mem_not_exposed_pk_sub h)
  · exact Or.inl (mem_not_exposed_fk_sub h)
  · exact Or.inl (mem_not_exposed_cols_sub h)
  · unfold not_exposed_relationships at h
    simp only [List.mem_filter, beq_iff_eq] at h
    exact Or.inr (Or.inl h)
  · unfold not_exposed_hybrid_properties at h
    simp only [List.mem_filter, beq_iff_eq] at h
    exact Or.inr (Or.inr h)

theorem wf_col_inj {e : EntityType} (hwf : WellFormed e) :
    ∀ a ∈ e.column_attrs, ∀ b ∈ e.column_attrs, a.key = b.key → a = b := by
  unfold WellFormed attribute_names at hwf
  rw [List.append_assoc] at hwf
  have h1 : (e.column_attrs.map (fun a => a.key)).Nodup :=
    (List.nodup_append.mp hwf).1
  exact fun a ha b hb hab => List.inj_on_of_nodup_map h1 ha hb hab

theorem wf_disjoint_col_rel {e : EntityType} (hwf : WellFormed e) :
    ∀ a ∈ e.column_attrs, a.key ∉ e.relationship_keys ∧
      a.key ∉ e.hybrid_property_keys := by
  unfold WellFormed attribute_names at hwf
  rw [List.append_assoc] at hwf
  intro a ha
  have hdis := List.disjoint_of_nodup_append hwf
  have hmem : a.key ∈ e.column_attrs.map (fun a => a.key) :=
    List.mem_map.mpr ⟨a, ha, rfl⟩
  have h2 := hdis hmem
  simp only [List.mem_append] at h2
  exact ⟨fun hr => h2 (Or.inl hr), fun hh => h2 (Or.inr hh)⟩

theorem wf_disjoint_rel_hyb {e : EntityType} (hwf : WellFormed e) :
    ∀ x ∈ e.relationship_keys, x ∉ e.hybrid_property_keys := by
  unfold WellFormed attribute_names at hwf
  rw [List.append_assoc] at hwf
  have h2 := (List.nodup_append.mp hwf).2.1
  exact fun x hx => List.disjoint_of_nodup_append h2 hx

/-- C1: `all_attributes` is exactly the concatenation of
`all_exposed_attributes` and `all_not_exposed_attributes`; the two are
disjoint for well-formed mapper metadata; and, through the
`local_cached` cells, repeated reads of each of the three properties
return the value computed at the first read even if the exposure
metadata changes afterwards. -/
theorem C1_attribute_partition (e : EntityType) (hwf : WellFormed e)
    (metas : Nat → EntityType) (h0 : metas 0 = e) :
    all_attributes e = all_exposed_attributes e ++ all_not_exposed_attributes e ∧
    (∀ x ∈ all_exposed_attributes e, x ∉ all_not_exposed_attributes e) ∧
    (∀ n, (cachedRead (fun i => all_attributes (metas i)) n).1 = all_attributes e) ∧
    (∀ n, (cachedRead (fun i => all_exposed_attributes (metas i)) n).1 =
      all_exposed_attributes e) ∧
    (∀ n, (cachedRead (fun i => all_not_exposed_attributes (metas i)) n).1 =
      all_not_exposed_attributes e) := by
  refine ⟨rfl, ?_, ?_, ?_, ?_⟩
  · intro x hx hx'
    rcases mem_all_exposed_attributes hx with ⟨a, ha, hak, hex, hexp⟩ | ⟨hr, hex⟩ | ⟨hh, hex⟩
    · rcases mem_all_not_exposed_attributes hx' with ⟨b, hb, hbk, hcond⟩ | ⟨hr', hex'⟩ | ⟨hh', hex'⟩
      · have hab : a = b := wf_col_inj hwf a ha b hb (hak.trans hbk.symm)
        rcases hcond with hc | hc
        · rw [hex] at hc; exact Bool.noConfusion hc
        · rw [hab] at hexp; rw [hexp] at hc; exact Bool.noConfusion hc
      · exact (wf_disjoint_col_rel hwf a ha).1 (hak ▸ hr')
      · exact (wf_disjoint_col_rel hwf a ha).2 (hak ▸ hh')
    · rcases mem_all_not_exposed_attributes hx' with ⟨b, hb, hbk, hcond⟩ | ⟨hr', hex'⟩ | ⟨hh', hex'⟩
      · exact (wf_disjoint_col_rel hwf b hb).1 (hbk ▸ hr)
      · rw [hex] at hex'; exact Bool.noConfusion hex'
      · exact wf_disjoint_rel_hyb hwf x hr hh'
    · rcases mem_all_not_exposed_attributes hx' with ⟨b, hb, hbk, hcond⟩ | ⟨hr', hex'⟩ | ⟨hh', hex'⟩
      · exact (wf_disjoint_col_rel hwf b hb).2 (hbk ▸ hh)
      · exact wf_disjoint_rel_hyb hwf x hr' hh
      · rw [hex] at hex'; exact Bool.noConfusion hex'
  · intro n; rw [cachedRead_eq_first, h0]
  · intro n; rw [cachedRead_eq_first, h0]
  · intro n; rw [cachedRead_eq_first, h0]

/-- C1 witness: a concrete well-formed entity with exposed and
not-exposed attributes of every kind. -/
theorem C1_witness :
    WellFormed entC1 ∧
    (∀ x ∈ all_exposed_attributes entC1, x ∉ all_not_exposed_attributes entC1) :=
  ⟨by decide,
   (C1_attribute_partition entC1 (by decide) (fun _ => entC1) rfl).2.1⟩

/-! ## C4 and C2 -/

theorem mem_pySet : ∀ (l : List String) (a : String), a ∈ pySet l ↔ a ∈ l := by
  intro l
  induction l with
  | nil => intro a; simp [pySet]
  | cons x rest ih =>
    intro a
    simp only [pySet]
    by_cases h : (pySet rest).contains x
    · rw [if_pos h]
      have hx : x ∈ rest := (ih x).mp (by simpa [List.contains] using h)
      rw [ih a, List.mem_cons]
      exact ⟨fun ha => Or.inr ha, fun ha => ha.elim (fun he => he ▸ hx) id⟩
    · rw [if_neg h]
      simp [List.mem_cons, ih a]

theorem nodup_pySet (l : List String) : (pySet l).Nodup := by
  induction l with
  | nil => simp [pySet]
  | cons x rest ih =>
    simp only [pySet]
    by_cases h : (pySet rest).contains x
    · rw [if_pos h]; exact ih
    · rw [if_neg h]
      refine List.nodup_cons.mpr ⟨?_, ih⟩
      intro hx
      exact h (by simpa [List.contains] using hx)


/-- C4: requesting a column name absent from the resolved attribute set
(all exposed attributes under `exposed_only=SECURE_TRUE`, all attributes
under `SECURE_FALSE`) makes `to_dict` signal `ColumnNotExistedError`. -/
theorem C4_unknown_column_raises (dd : Int) (cls : EntityType) (vals : PyDict)
    (eo : SecureBool) (cols : List String) (dep : Option Int) (c : String)
    (hmem : c ∈ cols)
    (hnot : c ∉ (if eo = SecureBool.SECURE_FALSE then all_attributes cls
      else all_exposed_attributes cls)) :
    to_dict dd cls vals
      { exposed_only := eo, columns := some (.plain cols), rename := none,
        exclude := none, depth := dep } = .error .columnNotExisted := by
  unfold to_dict
  rw [to_dictF]
  have hext : extract_conditions cls
      { exposed_only := eo, columns := some (.plain cols), rename := none,
        exclude := none, depth := dep } = (pySet cols, [], []) := by
    unfold extract_conditions
    simp [pySet]
  rw [hext]
  dsimp only
  have hbeq : (if (eo == SecureBool.SECURE_FALSE) = true then all_attributes cls
      else all_exposed_attributes cls) =
      (if eo = SecureBool.SECURE_FALSE then all_attributes cls
      else all_exposed_attributes cls) := by
    by_cases heo : eo = SecureBool.SECURE_FALSE <;> simp [heo]
  rw [hbeq]
  have hcset : c ∈ pySet cols := (mem_pySet cols c).mpr hmem
  have hlen : (pySet cols).length > 0 :=
    List.length_pos.mpr (List.ne_nil_of_mem hcset)
  have hfilter : ((pySet cols).filter (fun x =>
      !(pySet (if eo = SecureBool.SECURE_FALSE then all_attributes cls
        else all_exposed_attributes cls)).contains x)).length > 0 := by
    have hnm : c ∉ pySet (if eo = SecureBool.SECURE_FALSE then all_attributes cls
        else all_exposed_attributes cls) :=
      fun hc => hnot ((mem_pySet _ c).mp hc)
    have hcmem : c ∈ (pySet cols).filter (fun x =>
        !(pySet (if eo = SecureBool.SECURE_FALSE then all_attributes cls
          else all_exposed_attributes cls)).contains x) := by
      refine List.mem_filter.mpr ⟨hcset, ?_⟩
      simpa [List.contains] using hnm
    exact List.length_pos.mpr (List.ne_nil_of_mem hcmem)
  rw [if_pos hlen, if_pos hfilter]

/-- C2 (amended): an entity with at least one *exposed* relationship,
converted with default options and an explicit depth above `MAX_DEPTH`,
signals `InvalidDepthProvidedError`. -/
theorem C2_depth_exceeded (dd : Int) (cls : EntityType) (vals : PyDict)
    (d : Int) (hrel : exposed_relationships cls ≠ []) (hd : d > MAX_DEPTH) :
    to_dict dd cls vals { depth := some d } = .error .invalidDepth := by
  unfold to_dict
  rw [to_dictF]
  have hext : extract_conditions cls { depth := some d } = ([], [], []) := rfl
  rw [hext]
  dsimp only
  rw [if_neg (by simp : ¬(([] : List String).length > 0))]
  rw [if_neg (by decide : ¬((SecureBool.SECURE_TRUE == SecureBool.SECURE_FALSE) = true))]
  rw [if_neg (by decide : ¬((SecureBool.SECURE_TRUE == SecureBool.SECURE_FALSE) = true))]
  have hfil : (pySet (all_exposed_attributes cls)).filter
      (fun c => !([] : List String).contains c) =
      pySet (all_exposed_attributes cls) := by
    simp [List.contains]
  rw [hfil]
  obtain ⟨r, hr⟩ := List.exists_mem_of_ne_nil _ hrel
  have hrall : r ∈ all_exposed_attributes cls := by
    unfold all_exposed_attributes
    simp only [List.mem_append]
    exact Or.inl (Or.inr hr)
  have hrset : r ∈ pySet (all_exposed_attributes cls) :=
    (mem_pySet _ r).mpr hrall
  have hrfil : r ∈ (pySet (all_exposed_attributes cls)).filter
      (fun c => (exposed_relationships cls).contains c) := by
    refine List.mem_filter.mpr ⟨hrset, ?_⟩
    simpa [List.contains] using hr
  have hlen : ((pySet (all_exposed_attributes cls)).filter
      (fun c => (exposed_relationships cls).contains c)).length > 0 :=
    List.length_pos.mpr (List.ne_nil_of_mem hrfil)
  have hd0 : (some d).getD dd > 0 := by
    simp only [Option.getD_some]
    unfold MAX_DEPTH at hd
    omega
  rw [if_pos (by simp only [decide_eq_true hd0, decide_eq_true hlen, Bool.and_self] :
    (decide ((some d).getD dd > 0) &&
      decide (((pySet (all_exposed_attributes cls)).filter
        (fun c => (exposed_relationships cls).contains c)).length > 0)) = true)]
  rw [if_pos (by simpa using hd)]

/-- C2 counterexample: `entC2` has a relationship, yet `to_dict` with
`depth=6 > MAX_DEPTH` returns normally instead of signalling
`InvalidDepthProvidedError`, because the relationship is not exposed
and hence never requested under the default options. -/
theorem C2_counterexample :
    relationships entC2 ≠ [] ∧
    to_dict 0 entC2 [] { depth := some 6 } = .ok [] :=
  ⟨by decide, by rfl⟩

/-- C4 witness: a concrete unknown column name raises the error. -/
theorem C4_witness :
    "bogus" ∈ ["bogus"] ∧
    "bogus" ∉ (if SecureBool.SECURE_TRUE = SecureBool.SECURE_FALSE then
      all_attributes entC1 else all_exposed_attributes entC1) ∧
    to_dict 0 entC1 []
      { exposed_only := .SECURE_TRUE, columns := some (.plain ["bogus"]),
        rename := none, exclude := none, depth := none } =
      .error .columnNotExisted :=
  ⟨by decide, by decide,
   C4_unknown_column_raises 0 entC1 [] .SECURE_TRUE ["bogus"] none "bogus"
     (by decide) (by decide)⟩

/-- C2 witness: an entity with an exposed relationship and `depth=6`. -/
theorem C2_witness :
    exposed_relationships entC1 ≠ [] ∧ (6 : Int) > MAX_DEPTH ∧
    to_dict 0 entC1 [] { depth := some 6 } = .error .invalidDepth :=
  ⟨by decide, by decide, C2_depth_exceeded 0 entC1 [] 6 (by decide) (by decide)⟩

/-! ## C10 -/

theorem countSep_append (a b : Bytes) : countSep (a ++ b) = countSep a + countSep b := by
  unfold countSep
  rw [List.filter_append, List.length_append]

theorem countSep_cons_sep (l : Bytes) : countSep (SEP :: l) = countSep l + 1 := by
  unfold countSep
  simp [SEP, Nat.add_comm]

theorem countSep_eq_zero {l : Bytes} (h : SEP ∉ l) : countSep l = 0 := by
  unfold countSep
  rw [List.length_eq_zero, List.filter_eq_nil_iff]
  intro b hb hbe
  have hbs : b = SEP := by simpa using hbe
  rw [hbs] at hb
  exact h hb

theorem takeWhile_append_sep {pre : Bytes} (rest : Bytes) (h : SEP ∉ pre) :
    (pre ++ SEP :: rest).takeWhile (fun b => !(b == SEP)) = pre := by
  induction pre with
  | nil => simp [List.takeWhile]
  | cons x xs ih =>
    have hx : x ≠ SEP := fun hxe => h (hxe ▸ List.mem_cons_self x xs)
    have hxs : SEP ∉ xs := fun hm => h (List.mem_cons_of_mem x hm)
    simp only [List.cons_append, List.takeWhile_cons]
    rw [if_pos (by simp [hx]), ih hxs]

theorem dropWhile_append_sep {pre : Bytes} (rest : Bytes) (h : SEP ∉ pre) :
    (pre ++ SEP :: rest).dropWhile (fun b => !(b == SEP)) = SEP :: rest := by
  induction pre with
  | nil => simp [List.dropWhile]
  | cons x xs ih =>
    have hx : x ≠ SEP := fun hxe => h (hxe ▸ List.mem_cons_self x xs)
    have hxs : SEP ∉ xs := fun hm => h (List.mem_cons_of_mem x hm)
    simp only [List.cons_append, List.dropWhile_cons]
    rw [if_pos (by simp [hx])]
    exact ih hxs

theorem splitSep_zero (l : Bytes) : splitSep 0 l = [l] := rfl

theorem splitSep_append {pre : Bytes} (m : Nat) (rest : Bytes) (h : SEP ∉ pre) :
    splitSep (m + 1) (pre ++ SEP :: rest) = pre :: splitSep m rest := by
  conv_lhs => rw [splitSep]
  rw [takeWhile_append_sep rest h, dropWhile_append_sep rest h]

theorem natToDecBytesAux_zero (fuel : Nat) : natToDecBytesAux fuel 0 = [] := by
  cases fuel <;> rfl

theorem natToDecBytesAux_digits :
    ∀ (fuel n : Nat), ∀ b ∈ natToDecBytesAux fuel n, 48 ≤ b ∧ b ≤ 57 := by
  intro fuel
  induction fuel with
  | zero => intro n b hb; simp [natToDecBytesAux] at hb
  | succ f ih =>
    intro n b hb
    cases n with
    | zero => simp [natToDecBytesAux] at hb
    | succ k =>
      simp only [natToDecBytesAux, List.mem_cons] at hb
      rcases hb with rfl | hb
      · have : (k + 1) % 10 < 10 := Nat.mod_lt _ (by omega)
        omega
      · exact ih _ b hb

theorem decValue_append_digit (l : Bytes) (b : Nat) :
    decValue (l ++ [b]) = 10 * decValue l + (b - 48) := by
  unfold decValue
  rw [List.foldl_append]
  rfl

theorem natToDecBytesAux_val :
    ∀ (fuel n : Nat), n ≤ fuel → 0 < n →
      decValue (natToDecBytesAux fuel n).reverse = n := by
  intro fuel
  induction fuel with
  | zero => intro n h1 h2; omega
  | succ f ih =>
    intro n h1 h2
    cases n with
    | zero => omega
    | succ k =>
      simp only [natToDecBytesAux, List.reverse_cons]
      rw [decValue_append_digit]
      have hmod : (k + 1) % 10 + 48 - 48 = (k + 1) % 10 := by omega
      rw [hmod]
      by_cases hq : (k + 1) / 10 = 0
      · rw [hq, natToDecBytesAux_zero]
        simp only [List.reverse_nil]
        have : decValue [] = 0 := rfl
        rw [this]
        have := Nat.div_add_mod (k + 1) 10
        omega
      · have hlt : (k + 1) / 10 < k + 1 := Nat.div_lt_self (by omega) (by omega)
        rw [ih ((k + 1) / 10) (by omega) (by omega)]
        have := Nat.div_add_mod (k + 1) 10
        omega

theorem parseNatBytes_natToDecBytes (n : Nat) :
    parseNatBytes (natToDecBytes n) = some n := by
  by_cases h0 : n = 0
  · rw [h0]; rfl
  · unfold natToDecBytes
    rw [if_neg h0]
    unfold parseNatBytes
    have hne : natToDecBytesAux n n ≠ [] := by
      cases hn : n with
      | zero => omega
      | succ k => simp [natToDecBytesAux]
    have hdig : ((natToDecBytesAux n n).reverse.all isDigitByte) = true := by
      rw [List.all_eq_true]
      intro b hb
      have := natToDecBytesAux_digits n n b (List.mem_reverse.mp hb)
      simp only [isDigitByte, Bool.and_eq_true, decide_eq_true_eq]
      omega
    rw [if_pos]
    · rw [natToDecBytesAux_val n n (Nat.le_refl n) (by omega)]
    · have hrev : (natToDecBytesAux n n).reverse ≠ [] := by simpa using hne
      simp only [Bool.and_eq_true, Bool.not_eq_true']
      refine ⟨?_, hdig⟩
      cases hx : (natToDecBytesAux n n).reverse with
      | nil => exact absurd hx hrev
      | cons a as => rfl

theorem sep_not_mem_natToDecBytes (n : Nat) : SEP ∉ natToDecBytes n := by
  unfold natToDecBytes
  by_cases h0 : n = 0
  · rw [if_pos h0]; decide
  · rw [if_neg h0]
    intro hm
    have := natToDecBytesAux_digits n n SEP (List.mem_reverse.mp hm)
    unfold SEP at this
    omega

theorem sep_not_mem_intToDecBytes (i : Int) : SEP ∉ intToDecBytes i := by
  unfold intToDecBytes
  by_cases hneg : i < 0
  · rw [if_pos hneg]
    intro hm
    rcases List.mem_cons.mp hm with he | hm
    · exact absurd he (by decide)
    · exact sep_not_mem_natToDecBytes _ hm
  · rw [if_neg hneg]
    exact sep_not_mem_natToDecBytes _

theorem head_natToDecBytes_ne_45 (n : Nat) :
    (natToDecBytes n).head? ≠ some 45 := by
  unfold natToDecBytes
  by_cases h0 : n = 0
  · rw [if_pos h0]; decide
  · rw [if_neg h0]
    intro hh
    have hm : 45 ∈ (natToDecBytesAux n n).reverse := by
      cases hr : (natToDecBytesAux n n).reverse with
      | nil => rw [hr] at hh; exact Option.noConfusion hh
      | cons b bs =>
        rw [hr] at hh
        simp only [List.head?_cons, Option.some.injEq] at hh
        rw [hh]
        exact List.mem_cons_self _ _
    have := natToDecBytesAux_digits n n 45 (List.mem_reverse.mp hm)
    omega

theorem parseIntBytes_intToDecBytes (i : Int) :
    parseIntBytes (intToDecBytes i) = some i := by
  unfold parseIntBytes intToDecBytes
  by_cases hneg : i < 0
  · rw [if_pos hneg]
    rw [if_pos (by rfl)]
    simp only [List.tail_cons]
    rw [parseNatBytes_natToDecBytes]
    have habs : -((i.natAbs : Nat) : Int) = i := by omega
    calc Option.map (fun n : Nat => -(n : Int)) (some i.natAbs)
        = some (-((i.natAbs : Nat) : Int)) := rfl
      _ = some i := by rw [habs]
  · rw [if_neg hneg]
    rw [if_neg (head_natToDecBytes_ne_45 _)]
    rw [parseNatBytes_natToDecBytes]
    have htn : ((i.toNat : Nat) : Int) = i := Int.toNat_of_nonneg (le_of_not_lt hneg)
    calc Option.map (fun n : Nat => (n : Int)) (some i.toNat)
        = some ((i.toNat : Nat) : Int) := rfl
      _ = some i := by rw [htn]

theorem parseIntBytes_natToDecBytes (n : Nat) :
    parseIntBytes (natToDecBytes n) = some (n : Int) := by
  unfold parseIntBytes
  rw [if_neg (head_natToDecBytes_ne_45 _), parseNatBytes_natToDecBytes]
  rfl

theorem separator_count_eq : separator_count = 5 := by decide

theorem sep_not_mem_handlerName : SEP ∉ handlerName := by decide

/-- C10 (amended): extracting the parts of a freshly made final hash
returns exactly the original quadruple whenever the internal algorithm
name does not contain the separator byte `$` (salts and text hashes may
contain it freely, sitting in the final unsplit segment); and `is_match`
returns `False` instead of raising on any value failing the PBKDF2
structure check (fewer than five separators or a wrong leading byte). -/
theorem C10_pbkdf2_roundtrip (alg : Bytes) (r : Int) (salt text_hash : Bytes)
    (halg : SEP ∉ alg) :
    extract_parts_from_final_hash (make_final_hash alg r salt text_hash) =
      .ok (alg, r, salt, text_hash) ∧
    (∀ (hmac : Bytes → Bytes → Bytes → Int → Bytes)
      (random_bytes : Int → Bytes) (cfg : HashConfig) (text full : Bytes),
      countSep full < separator_count ∨ full.head? ≠ some SEP →
      is_match hmac random_bytes cfg text full = .ok false) := by
  constructor
  · have hjoin : make_final_hash alg r salt text_hash =
        SEP :: (handlerName ++ SEP :: (alg ++ SEP :: (intToDecBytes r ++
          SEP :: (natToDecBytes salt.length ++ SEP :: (salt ++ text_hash))))) := by
      unfold make_final_hash
      simp [joinSep]
    rw [hjoin]
    unfold extract_parts_from_final_hash
    rw [separator_count_eq]
    have hch : countSep handlerName = 0 := by decide
    have hca : countSep alg = 0 := countSep_eq_zero halg
    have hcr : countSep (intToDecBytes r) = 0 :=
      countSep_eq_zero (sep_not_mem_intToDecBytes r)
    have hcs : countSep (natToDecBytes salt.length) = 0 :=
      countSep_eq_zero (sep_not_mem_natToDecBytes _)
    have hcount : countSep (SEP :: (handlerName ++ SEP :: (alg ++ SEP ::
        (intToDecBytes r ++ SEP :: (natToDecBytes salt.length ++ SEP ::
          (salt ++ text_hash)))))) = 5 + countSep (salt ++ text_hash) := by
      rw [countSep_cons_sep, countSep_append, countSep_cons_sep, countSep_append,
        countSep_cons_sep, countSep_append, countSep_cons_sep, countSep_append,
        countSep_cons_sep, hch, hca, hcr, hcs]
      ring
    rw [if_neg (by
      simp only [Bool.or_eq_true, decide_eq_true_eq, Bool.not_eq_true']
      push_neg
      constructor
      · rw [hcount]; omega
      · simp)]
    have hsplit : splitSep 5 (SEP :: (handlerName ++ SEP :: (alg ++ SEP ::
        (intToDecBytes r ++ SEP :: (natToDecBytes salt.length ++ SEP ::
          (salt ++ text_hash)))))) =
        [[], handlerName, alg, intToDecBytes r, natToDecBytes salt.length,
          salt ++ text_hash] := by
      rw [show (SEP :: (handlerName ++ SEP :: (alg ++ SEP ::
        (intToDecBytes r ++ SEP :: (natToDecBytes salt.length ++ SEP ::
          (salt ++ text_hash)))))) = ([] : Bytes) ++ SEP :: (handlerName ++
        SEP :: (alg ++ SEP :: (intToDecBytes r ++ SEP ::
          (natToDecBytes salt.length ++ SEP :: (salt ++ text_hash))))) from rfl]
      rw [show (5 : Nat) = 4 + 1 from rfl,
        splitSep_append 4 _ (List.not_mem_nil SEP)]
      rw [show (4 : Nat) = 3 + 1 from rfl,
        splitSep_append 3 _ sep_not_mem_handlerName]
      rw [show (3 : Nat) = 2 + 1 from rfl, splitSep_append 2 _ halg]
      rw [show (2 : Nat) = 1 + 1 from rfl,
        splitSep_append 1 _ (sep_not_mem_intToDecBytes r)]
      rw [show (1 : Nat) = 0 + 1 from rfl,
        splitSep_append 0 _ (sep_not_mem_natToDecBytes _)]
      rfl
    rw [hsplit]
    dsimp only
    rw [if_neg (by simp)]
    rw [parseIntBytes_natToDecBytes]
    dsimp only
    have hslice : pySliceIdx (salt ++ text_hash).length ((salt.length : Nat) : Int) =
        salt.length := by
      unfold pySliceIdx
      rw [if_pos (Int.natCast_nonneg _)]
      rw [Int.toNat_natCast]
      rw [List.length_append]
      exact Nat.min_eq_left (Nat.le_add_right _ _)
    rw [hslice]
    rw [parseIntBytes_intToDecBytes]
    dsimp only
    rw [List.take_left, List.drop_left]
  · intro hmac random_bytes cfg text full hbad
    have hext : extract_parts_from_final_hash full = .error .invalidPBKDF2Hash := by
      unfold extract_parts_from_final_hash
      rw [if_pos (by
        simp only [Bool.or_eq_true, decide_eq_true_eq, Bool.not_eq_true']
        rcases hbad with h | h
        · exact Or.inl h
        · exact Or.inr (beq_eq_false_iff_ne.mpr h))]
    unfold is_match
    rw [hext]
    rfl

/-- C10 counterexample: an algorithm name containing the separator byte
makes the extract-of-make roundtrip fail (Python: uncaught `ValueError`
from `int()`), and a structurally plausible hash with non-numeric
`rounds`/`salt_length` fields makes `is_match` raise instead of
returning `False`. -/
theorem C10_counterexample :
    extract_parts_from_final_hash (make_final_hash (encodeStr "a$b") 1 [7] [8]) =
      .error .valueError ∧
    is_match (fun _ _ _ _ => []) (fun _ => []) ⟨encodeStr "sha256", 10, 16⟩
      (encodeStr "pw") (encodeStr "$PBKDF2$sha256$x$y$z") = .error .valueError :=
  ⟨by rfl, by rfl⟩

/-- C10 witness: roundtrip on a salt containing the separator byte, and
`is_match` returning `False` on a structurally invalid value. -/
theorem C10_witness :
    SEP ∉ encodeStr "sha256" ∧
    extract_parts_from_final_hash
      (make_final_hash (encodeStr "sha256") 3 [36, 1] [9]) =
      .ok (encodeStr "sha256", 3, [36, 1], [9]) ∧
    is_match (fun _ _ _ _ => []) (fun _ => []) ⟨encodeStr "sha256", 10, 16⟩
      [] [] = .ok false :=
  ⟨by decide,
   (C10_pbkdf2_roundtrip (encodeStr "sha256") 3 [36, 1] [9] (by decide)).1,
   (C10_pbkdf2_roundtrip (encodeStr "sha256") 3 [36, 1] [9] (by decide)).2
     (fun _ _ _ _ => []) (fun _ => []) ⟨encodeStr "sha256", 10, 16⟩ [] []
     (Or.inl (by decide))⟩


theorem get_selectable_fields_ok_ne_nil {cfg : AdminPageCfg} {e : EntityType}
    {sel : List AdminField} (h : get_selectable_fields cfg e = .ok sel) :
    sel ≠ [] := by
  unfold get_selectable_fields at h
  by_cases hl : (get_list_fields cfg e ++ get_list_temp_fields cfg).length ≤ 0
  · rw [if_pos hl] at h
    exact Except.noConfusion h
  · rw [if_neg hl] at h
    have hsel : get_list_fields cfg e ++ get_list_temp_fields cfg = sel :=
      Except.ok.inj h
    intro hnil
    rw [hnil] at hsel
    rw [hsel] at hl
    exact hl (Nat.le_refl 0)

/-- C7: an admin page configuration that passes the entity and naming
validations but resolves to no selectable field (no list field and no
list temp field is a column attribute or hybrid property) makes
`__init__` signal `ListFieldRequiredError`; conversely a page that
constructs successfully always carries a non-empty cached selectable
field tuple, so the error can never first arise at request time. -/
theorem C7_list_field_required_at_init (cfg : AdminPageCfg) (e : EntityType)
    (rn nm : String) (hent : cfg.entity = some e)
    (hrn : cfg.register_name = some rn) (hrn1 : ¬(rn == "") = true)
    (hrn2 : ¬pyIsSpace rn = true)
    (hnm : cfg.name = some nm) (hnm1 : ¬(nm == "") = true)
    (hnm2 : ¬pyIsSpace nm = true)
    (hnames : ∃ ns, get_list_field_names cfg e = .ok ns)
    (htemp : ∃ ts, get_list_temp_field_names cfg = .ok ts) :
    (get_list_fields cfg e ++ get_list_temp_fields cfg = [] →
      initAdminPage cfg = .error .listFieldRequired) ∧
    (∀ p, initAdminPage cfg = .ok p → p.selectable_fields ≠ []) := by
  obtain ⟨ns, hns⟩ := hnames
  obtain ⟨ts, hts⟩ := htemp
  have hinit : initAdminPage cfg =
      (get_selectable_fields cfg e).bind (fun sel =>
        .ok { entity := e, cfg := cfg, selectable_fields := sel }) := by
    unfold initAdminPage
    rw [hent, hrn, hnm]
    dsimp only
    rw [if_neg (by simp only [Bool.or_eq_true]; exact fun hc => hc.elim hrn1 hrn2)]
    rw [if_neg (by simp only [Bool.or_eq_true]; exact fun hc => hc.elim hnm1 hnm2)]
    rw [show (do
        let _ ← get_list_field_names cfg e
        let _ ← get_list_temp_field_names cfg
        let sel ← get_selectable_fields cfg e
        Except.ok { entity := e, cfg := cfg, selectable_fields := sel } :
          Except AdminInitError AdminPage) =
      (get_list_field_names cfg e).bind (fun _ =>
        (get_list_temp_field_names cfg).bind (fun _ =>
          (get_selectable_fields cfg e).bind (fun sel =>
            .ok { entity := e, cfg := cfg, selectable_fields := sel }))) from rfl]
    rw [hns, hts]
    rfl
  constructor
  · intro hempty
    rw [hinit]
    unfold get_selectable_fields
    rw [hempty]
    rfl
  · intro p hp
    rw [hinit] at hp
    cases hsel : get_selectable_fields cfg e with
    | error err =>
      rw [hsel] at hp
      exact Except.noConfusion hp
    | ok sel =>
      rw [hsel] at hp
      have : p = { entity := e, cfg := cfg, selectable_fields := sel } :=
        (Except.ok.inj hp).symm
      rw [this]
      exact get_selectable_fields_ok_ne_nil hsel

/-- C7 witness: `cfgC7` fails construction with
`ListFieldRequiredError`. -/
theorem C7_witness :
    get_list_fields cfgC7 entC2 ++ get_list_temp_fields cfgC7 = [] ∧
    initAdminPage cfgC7 = .error .listFieldRequired :=
  ⟨by decide,
   (C7_list_field_required_at_init cfgC7 entC2 "lone" "Lone" rfl rfl
     (by decide) (by decide) rfl (by decide) (by decide)
     ⟨[], by rfl⟩ ⟨[], by rfl⟩).1 (by decide)⟩

/-! ## C8 -/

theorem dictPop_not_found (d : PyDict) (k : String) (dflt : PyVal)
    (h : dictGet d k = none) : dictPop d k dflt = (dflt, d) := by
  unfold dictPop
  rw [h]

theorem getattr_foldl_setattr_not_mem (l : List String) (f : String → PyVal)
    (vals : PyDict) (name : String) (h : name ∉ l) :
    getattr (l.foldl (fun acc col => setattr acc col (f col)) vals) name =
      getattr vals name := by
  induction l generalizing vals with
  | nil => rfl
  | cons c rest ih =>
    rw [List.foldl_cons]
    have hnc : name ≠ c := fun he => h (he ▸ List.mem_cons_self c rest)
    have hnr : name ∉ rest := fun hm => h (List.mem_cons_of_mem c hm)
    rw [ih _ hnr, getattr_setattr_ne _ _ _ _ hnc]

theorem getattr_foldl_setattr_mem (l : List String) (f : String → PyVal)
    (vals : PyDict) (name : String) (h : name ∈ l) (hnd : l.Nodup) :
    getattr (l.foldl (fun acc col => setattr acc col (f col)) vals) name =
      f name := by
  induction l generalizing vals with
  | nil => cases h
  | cons c rest ih =>
    rw [List.foldl_cons]
    rcases List.mem_cons.mp h with rfl | hm
    · have hnr : name ∉ rest := (List.nodup_cons.mp hnd).1
      rw [getattr_foldl_setattr_not_mem rest f _ name hnr]
      show (dictGet (dictSet vals name (f name)) name).getD .vnone = f name
      rw [dictGet_dictSet_self]
      rfl
    · exact ih _ hm (List.nodup_cons.mp hnd).2

/-- C8: `from_dict` pops `ignore_invalid_column` with default
`SECURE_TRUE`; when the popped value is not `SECURE_FALSE`, conversion
succeeds, silently ignoring keys outside the accessible column set;
when it is `SECURE_FALSE` and some remaining key lies outside the
accessible set, `from_dict` signals `ColumnNotExistedError`; and in
every successful case only accessible keys are assigned — any attribute
outside the accessible set keeps its previous value. -/
theorem C8_from_dict_unknown_keys (cls : EntityType) (vals kwargs : PyDict) :
    (dictGet kwargs "ignore_invalid_column" = none →
      (from_dict_prelude cls kwargs).1 = .vsecure .SECURE_TRUE) ∧
    (isSecureFalse (from_dict_prelude cls kwargs).1 = false →
      ∃ res, from_dict cls vals kwargs = .ok res) ∧
    (isSecureFalse (from_dict_prelude cls kwargs).1 = true →
      (∃ k, k ∈ (from_dict_prelude cls kwargs).2.2.map (fun p => p.1) ∧
        k ∉ (from_dict_prelude cls kwargs).2.1) →
      from_dict cls vals kwargs = .error .columnNotExisted) ∧
    (∀ res, from_dict cls vals kwargs = .ok res →
      ∀ name, name ∉ (from_dict_prelude cls kwargs).2.1 →
        getattr res name = getattr vals name) := by
  refine ⟨?_, ?_, ?_, ?_⟩
  · intro h
    unfold from_dict_prelude
    rw [dictPop_not_found _ _ _ h]
    dsimp only
    by_cases hpa : isSecureTrue (dictPop kwargs "populate_all"
        (.vsecure .SECURE_FALSE)).1
    · rw [if_pos hpa]
    · rw [if_neg hpa]
  · intro h
    unfold from_dict
    rw [if_neg (by rw [h, Bool.false_and]; exact Bool.false_ne_true)]
    exact ⟨_, rfl⟩
  · intro h hk
    obtain ⟨k, hk1, hk2⟩ := hk
    unfold from_dict
    rw [if_pos ?_]
    rw [h, Bool.true_and]
    have hkf : k ∈ ((from_dict_prelude cls kwargs).2.2.map (fun p => p.1)).filter
        (fun c => !(from_dict_prelude cls kwargs).2.1.contains c) := by
      refine List.mem_filter.mpr ⟨hk1, ?_⟩
      simpa [List.contains] using hk2
    simpa using List.length_pos.mpr (List.ne_nil_of_mem hkf)
  · intro res hres name hname
    unfold from_dict at hres
    by_cases hc : (isSecureFalse (from_dict_prelude cls kwargs).1 &&
        decide (0 < (((from_dict_prelude cls kwargs).2.2.map (fun p => p.1)).filter
          (fun c => !(from_dict_prelude cls kwargs).2.1.contains c)).length)) = true
    · rw [if_pos hc] at hres
      exact Except.noConfusion hres
    · rw [if_neg hc] at hres
      have hres' := (Except.ok.inj hres).symm
      rw [hres']
      apply getattr_foldl_setattr_not_mem
      intro hmem
      have := (List.mem_filter.mp hmem).1
      exact hname ((mem_pySet _ name).mp this)

/-- C8 witness: an unknown key `junk` is silently ignored by default
and raises `ColumnNotExistedError` under
`ignore_invalid_column=SECURE_FALSE`. -/
theorem C8_witness :
    (from_dict_prelude entC1 [("junk", PyVal.vint 1)]).1 =
      .vsecure .SECURE_TRUE ∧
    (∃ res, from_dict entC1 [] [("junk", PyVal.vint 1)] = .ok res) ∧
    from_dict entC1 []
      [("junk", PyVal.vint 1),
       ("ignore_invalid_column", PyVal.vsecure .SECURE_FALSE)] =
      .error .columnNotExisted :=
  ⟨(C8_from_dict_unknown_keys entC1 [] [("junk", PyVal.vint 1)]).1 (by rfl),
   (C8_from_dict_unknown_keys entC1 [] [("junk", PyVal.vint 1)]).2.1 (by rfl),
   (C8_from_dict_unknown_keys entC1 []
      [("junk", PyVal.vint 1),
       ("ignore_invalid_column", PyVal.vsecure .SECURE_FALSE)]).2.2.1 (by rfl)
     ⟨"junk", by decide, by decide⟩⟩

/-! ## C3 -/

theorem except_bind_ok {α β ε : Type} (a : α) (f : α → Except ε β) :
    (Except.ok (ε := ε) a) >>= f = f a := rfl

theorem dictGet_foldl_dictSet_not_mem (l : List String) (f : String → PyVal)
    (init : PyDict) (name : String) (h : name ∉ l) :
    dictGet (l.foldl (fun d col => dictSet d col (f col)) init) name =
      dictGet init name := by
  induction l generalizing init with
  | nil => rfl
  | cons c rest ih =>
    rw [List.foldl_cons]
    have hnc : name ≠ c := fun he => h (he ▸ List.mem_cons_self c rest)
    have hnr : name ∉ rest := fun hm => h (List.mem_cons_of_mem c hm)
    rw [ih _ hnr, dictGet_dictSet_ne _ _ _ _ hnc]

theorem dictGet_foldl_dictSet_mem (l : List String) (f : String → PyVal)
    (init : PyDict) (name : String) (h : name ∈ l) (hnd : l.Nodup) :
    dictGet (l.foldl (fun d col => dictSet d col (f col)) init) name =
      some (f name) := by
  induction l generalizing init with
  | nil => cases h
  | cons c rest ih =>
    rw [List.foldl_cons]
    rcases List.mem_cons.mp h with rfl | hm
    · have hnr : name ∉ rest := (List.nodup_cons.mp hnd).1
      rw [dictGet_foldl_dictSet_not_mem rest f _ name hnr, dictGet_dictSet_self]
    · exact ih _ hm (List.nodup_cons.mp hnd).2

theorem mem_keys_of_dictGet_ne_none {d : PyDict} {k : String}
    (h : dictGet d k ≠ none) : k ∈ d.map (fun p => p.1) := by
  unfold dictGet at h
  cases hf : d.find? (fun p => p.1 == k) with
  | none => rw [hf] at h; exact absurd rfl h
  | some q =>
    have hq := List.find?_some hf
    have hmem := List.mem_of_find?_eq_some hf
    exact List.mem_map.mpr ⟨q, hmem, by simpa using hq⟩

/-- The relationship loop succeeds and leaves non-relationship keys of
the accumulator untouched whenever every relationship value is `None`
or an empty collection (as on a freshly constructed entity). -/
theorem convRels_trivial (conv : EntityType → PyDict → Except ConvError PyDict)
    (vals : PyDict) (names : List String) (acc : PyDict)
    (hv : ∀ r ∈ names, getattr vals r = .vnone ∨ getattr vals r = .vlist []) :
    ∃ res, convRels conv vals [] names acc = .ok res ∧
      (∀ k, k ∉ names → dictGet res k = dictGet acc k) ∧
      (∀ k, dictGet res k ≠ none → k ∈ names ∨ dictGet acc k ≠ none) := by
  induction names generalizing acc with
  | nil => exact ⟨acc, rfl, fun k _ => rfl, fun k hk => Or.inr hk⟩
  | cons rel rest ih =>
    have hrn : (renameGet [] rel).getD rel = rel := rfl
    have hv' : ∀ r ∈ rest, getattr vals r = .vnone ∨ getattr vals r = .vlist [] :=
      fun r hr => hv r (List.mem_cons_of_mem rel hr)
    rcases hv rel (List.mem_cons_self rel rest) with h | h
    · obtain ⟨res, hres, hout, hdom⟩ := ih (dictSet acc rel .vnone) hv'
      refine ⟨res, ?_, ?_, ?_⟩
      · simp only [convRels]
        rw [h, hrn]
        exact hres
      · intro k hk
        have hkrel : k ≠ rel := fun he => hk (he ▸ List.mem_cons_self rel rest)
        have hkrest : k ∉ rest := fun hm => hk (List.mem_cons_of_mem rel hm)
        rw [hout k hkrest, dictGet_dictSet_ne _ _ _ _ hkrel]
      · intro k hk
        rcases hdom k hk with hin | hne
        · exact Or.inl (List.mem_cons_of_mem rel hin)
        · by_cases hkrel : k = rel
          · exact Or.inl (hkrel ▸ List.mem_cons_self rel rest)
          · rw [dictGet_dictSet_ne _ _ _ _ hkrel] at hne
            exact Or.inr hne
    · obtain ⟨res, hres, hout, hdom⟩ :=
        ih (dictSet (dictSet acc rel .vnone) rel (.vlist [])) hv'
      refine ⟨res, ?_, ?_, ?_⟩
      · simp only [convRels]
        rw [h, hrn]
        show (do
          let l' ← convList conv []
          convRels conv vals [] rest
            (dictSet (dictSet acc rel .vnone) rel (.vlist l'))) = Except.ok res
        rw [show convList conv [] = .ok [] from rfl, except_bind_ok]
        exact hres
      · intro k hk
        have hkrel : k ≠ rel := fun he => hk (he ▸ List.mem_cons_self rel rest)
        have hkrest : k ∉ rest := fun hm => hk (List.mem_cons_of_mem rel hm)
        rw [hout k hkrest, dictGet_dictSet_ne _ _ _ _ hkrel,
          dictGet_dictSet_ne _ _ _ _ hkrel]
      · intro k hk
        rcases hdom k hk with hin | hne
        · exact Or.inl (List.mem_cons_of_mem rel hin)
        · by_cases hkrel : k = rel
          · exact Or.inl (hkrel ▸ List.mem_cons_self rel rest)
          · rw [dictGet_dictSet_ne _ _ _ _ hkrel,
              dictGet_dictSet_ne _ _ _ _ hkrel] at hne
            exact Or.inr hne

/-- `to_dict` with default options on an entity whose relationship
values are unset: it succeeds, the result maps every exposed
non-relationship attribute to its current value and every key of the
result dict is an exposed attribute name. -/
theorem to_dict_default (dd : Int) (cls : EntityType) (svals : PyDict)
    (hdd : dd ≤ MAX_DEPTH)
    (hrel : ∀ r ∈ exposed_relationships cls,
      getattr svals r = .vnone ∨ getattr svals r = .vlist []) :
    ∃ d, to_dict dd cls svals {} = .ok d ∧
      (∀ col, col ∈ all_exposed_attributes cls →
        col ∉ exposed_relationships cls →
        dictGet d col = some (getattr svals col)) ∧
      (∀ k, dictGet d k ≠ none → k ∈ all_exposed_attributes cls) := by
  unfold to_dict
  rw [to_dictF]
  rw [show extract_conditions cls {} = ([], [], []) from rfl]
  dsimp only
  rw [if_neg (by simp : ¬(([] : List String).length > 0))]
  rw [if_neg (by decide : ¬((SecureBool.SECURE_TRUE == SecureBool.SECURE_FALSE) = true))]
  rw [if_neg (by decide : ¬((SecureBool.SECURE_TRUE == SecureBool.SECURE_FALSE) = true))]
  have hfil : (pySet (all_exposed_attributes cls)).filter
      (fun c => !([] : List String).contains c) =
      pySet (all_exposed_attributes cls) := by
    simp [List.contains]
  rw [hfil]
  have hfold :
      ((pySet (all_exposed_attributes cls)).filter
          (fun c => !(exposed_relationships cls).contains c)).foldl
        (fun d col => dictSet d ((renameGet [] col).getD col)
          (getattr svals col)) [] =
      ((pySet (all_exposed_attributes cls)).filter
          (fun c => !(exposed_relationships cls).contains c)).foldl
        (fun d col => dictSet d col (getattr svals col)) [] := rfl
  rw [hfold]
  have hEnodup : (pySet (all_exposed_attributes cls)).Nodup := nodup_pySet _
  have hSnodup : ((pySet (all_exposed_attributes cls)).filter
      (fun c => !(exposed_relationships cls).contains c)).Nodup :=
    List.Nodup.filter _ hEnodup
  have hmemS : ∀ col, col ∈ all_exposed_attributes cls →
      col ∉ exposed_relationships cls →
      col ∈ (pySet (all_exposed_attributes cls)).filter
        (fun c => !(exposed_relationships cls).contains c) := by
    intro col h1 h2
    refine List.mem_filter.mpr ⟨(mem_pySet _ col).mpr h1, ?_⟩
    simpa [List.contains] using h2
  have hscalar0 : ∀ col, col ∈ all_exposed_attributes cls →
      col ∉ exposed_relationships cls →
      dictGet (((pySet (all_exposed_attributes cls)).filter
          (fun c => !(exposed_relationships cls).contains c)).foldl
        (fun d col => dictSet d col (getattr svals col)) []) col =
        some (getattr svals col) := by
    intro col h1 h2
    exact dictGet_foldl_dictSet_mem _ _ [] col (hmemS col h1 h2) hSnodup
  have hdom0 : ∀ k,
      dictGet (((pySet (all_exposed_attributes cls)).filter
          (fun c => !(exposed_relationships cls).contains c)).foldl
        (fun d col => dictSet d col (getattr svals col)) []) k ≠ none →
      k ∈ all_exposed_attributes cls := by
    intro k hk
    by_contra hns
    have hnm : k ∉ (pySet (all_exposed_attributes cls)).filter
        (fun c => !(exposed_relationships cls).contains c) := by
      intro hmem
      exact hns ((mem_pySet _ k).mp (List.mem_filter.mp hmem).1)
    rw [dictGet_foldl_dictSet_not_mem _ _ [] k hnm] at hk
    exact hk rfl
  have hRrel : ∀ k, k ∈ (pySet (all_exposed_attributes cls)).filter
      (fun c => (exposed_relationships cls).contains c) →
      k ∈ exposed_relationships cls := by
    intro k hk
    have := (List.mem_filter.mp hk).2
    simpa [List.contains] using this
  have hRsub : ∀ k, k ∈ (pySet (all_exposed_attributes cls)).filter
      (fun c => (exposed_relationships cls).contains c) →
      k ∈ all_exposed_attributes cls := by
    intro k hk
    exact (mem_pySet _ k).mp (List.mem_filter.mp hk).1
  by_cases hb : (decide ((none : Option Int).getD dd > 0) &&
      decide (((pySet (all_exposed_attributes cls)).filter
        (fun c => (exposed_relationships cls).contains c)).length > 0)) = true
  · rw [if_pos hb]
    rw [if_neg (by
      simp only [Option.getD_none]
      exact fun hc => absurd hdd (by omega))]
    obtain ⟨res, hres, hout, hdom⟩ := convRels_trivial _ svals
      ((pySet (all_exposed_attributes cls)).filter
        (fun c => (exposed_relationships cls).contains c)) _
      (fun r hr => hrel r (hRrel r hr))
    refine ⟨res, hres, ?_, ?_⟩
    · intro col h1 h2
      have hcolR : col ∉ (pySet (all_exposed_attributes cls)).filter
          (fun c => (exposed_relationships cls).contains c) :=
        fun hmem => h2 (hRrel col hmem)
      rw [hout col hcolR]
      exact hscalar0 col h1 h2
    · intro k hk
      rcases hdom k hk with hin | hne
      · exact hRsub k hin
      · exact hdom0 k hne
  · rw [if_neg hb]
    exact ⟨_, rfl, hscalar0, hdom0⟩

/-- `from_dict` when none of the option keywords occur in the keyword
dict: it succeeds with the default switches (exposed foreign keys and
exposed plain columns accessible) and assigns every provided accessible
key its provided value. -/
theorem from_dict_default (cls : EntityType) (tvals kwargs : PyDict)
    (hopts : ∀ k ∈ fromDictOptionKeys, dictGet kwargs k = none) :
    ∃ res, from_dict cls tvals kwargs = .ok res ∧
      (∀ col, col ∈ exposed_foreign_key_columns cls ++ exposed_columns cls →
        col ∈ kwargs.map (fun p => p.1) →
        getattr res col = (dictGet kwargs col).getD .vnone) := by
  have hpre : from_dict_prelude cls kwargs =
      (.vsecure .SECURE_TRUE,
       exposed_foreign_key_columns cls ++ exposed_columns cls, kwargs) := by
    unfold from_dict_prelude
    rw [dictPop_not_found _ _ _ (hopts "ignore_invalid_column" (by decide))]
    dsimp only
    rw [dictPop_not_found _ _ _ (hopts "populate_all" (by decide))]
    dsimp only
    rw [if_neg (by decide : ¬(isSecureTrue (.vsecure .SECURE_FALSE) = true))]
    rw [dictPop_not_found _ _ _ (hopts "exposed_only" (by decide))]
    dsimp only
    rw [dictPop_not_found _ _ _ (hopts "ignore_pk" (by decide))]
    dsimp only
    rw [dictPop_not_found _ _ _ (hopts "ignore_fk" (by decide))]
    dsimp only
    rw [dictPop_not_found _ _ _ (hopts "ignore_relationships" (by decide))]
    simp [from_dict_accessible,
      show isSecureFalse (PyVal.vsecure .SECURE_TRUE) = false from rfl,
      show isSecureTrue (PyVal.vsecure .SECURE_FALSE) = false from rfl]
  unfold from_dict
  rw [hpre]
  dsimp only
  rw [if_neg (by
    rw [show isSecureFalse (PyVal.vsecure .SECURE_TRUE) = false from rfl,
      Bool.false_and]
    exact Bool.false_ne_true)]
  refine ⟨_, rfl, ?_⟩
  intro col hcol hprov
  have hmem : col ∈ (pySet (exposed_foreign_key_columns cls ++
      exposed_columns cls)).filter
      (fun c => (kwargs.map (fun p => p.1)).contains c) := by
    refine List.mem_filter.mpr ⟨(mem_pySet _ col).mpr hcol, ?_⟩
    simpa [List.contains] using hprov
  have hnd : ((pySet (exposed_foreign_key_columns cls ++
      exposed_columns cls)).filter
      (fun c => (kwargs.map (fun p => p.1)).contains c)).Nodup :=
    List.Nodup.filter _ (nodup_pySet _)
  exact getattr_foldl_setattr_mem _ _ _ _ hmem hnd

theorem all_exposed_subset_attribute_names {cls : EntityType} {x : String}
    (h : x ∈ all_exposed_attributes cls) : x ∈ attribute_names cls := by
  unfold attribute_names
  rcases mem_all_exposed_attributes h with ⟨a, ha, hak, _, _⟩ | ⟨hr, _⟩ | ⟨hh, _⟩
  · exact List.mem_append_left _ (List.mem_append_left _
      (List.mem_map.mpr ⟨a, ha, hak⟩))
  · exact List.mem_append_left _ (List.mem_append_right _ hr)
  · exact List.mem_append_right _ hh

/-- C3 (amended): for a well-formed entity with unset relationship
values and a sane configured default depth, `to_dict` with default
options followed by `from_dict` with default options on a fresh entity
of the same type reproduces every exposed foreign key and exposed plain
column; primary keys are not reproduced because `from_dict` defaults to
`ignore_pk=SECURE_TRUE`.  (The entity must not name an attribute after
one of `from_dict`'s keyword options, which would be popped.) -/
theorem C3_roundtrip_non_pk (dd : Int) (cls : EntityType) (svals tvals : PyDict)
    (hwf : WellFormed cls) (hdd : dd ≤ MAX_DEPTH)
    (hrel : ∀ r ∈ exposed_relationships cls,
      getattr svals r = .vnone ∨ getattr svals r = .vlist [])
    (hopt : ∀ k ∈ fromDictOptionKeys, k ∉ attribute_names cls) :
    ∃ d res, to_dict dd cls svals {} = .ok d ∧ from_dict cls tvals d = .ok res ∧
      ∀ col ∈ exposed_foreign_key_columns cls ++ exposed_columns cls,
        getattr res col = getattr svals col := by
  obtain ⟨d, hd, hscalar, hkeys⟩ := to_dict_default dd cls svals hdd hrel
  have hopts : ∀ k ∈ fromDictOptionKeys, dictGet d k = none := by
    intro k hk
    by_cases hne : dictGet d k = none
    · exact hne
    · exact absurd (all_exposed_subset_attribute_names (hkeys k hne)) (hopt k hk)
  obtain ⟨res, hres, hassign⟩ := from_dict_default cls tvals d hopts
  refine ⟨d, res, hd, hres, ?_⟩
  intro col hcol
  have hcol_exposed : col ∈ all_exposed_attributes cls := by
    unfold all_exposed_attributes
    rcases List.mem_append.mp hcol with h | h
    · exact List.mem_append_left _ (List.mem_append_left _
        (List.mem_append_left _ (List.mem_append_right _ h)))
    · exact List.mem_append_left _ (List.mem_append_left _
        (List.mem_append_right _ h))
  have hcol_attr : ∃ a, a ∈ cls.column_attrs ∧ a.key = col := by
    rcases List.mem_append.mp hcol with h | h
    · obtain ⟨a, ha, hak, _, _⟩ := mem_exposed_fk_sub h
      exact ⟨a, ha, hak⟩
    · obtain ⟨a, ha, hak, _, _⟩ := mem_exposed_cols_sub h
      exact ⟨a, ha, hak⟩
  have hcol_notrel : col ∉ exposed_relationships cls := by
    obtain ⟨a, ha, hak⟩ := hcol_attr
    intro hmem
    have hr : col ∈ cls.relationship_keys := List.mem_of_mem_filter hmem
    exact (wf_disjoint_col_rel hwf a ha).1 (hak ▸ hr)
  have hget := hscalar col hcol_exposed hcol_notrel
  have hprov : col ∈ d.map (fun p => p.1) :=
    mem_keys_of_dictGet_ne_none (by rw [hget]; simp)
  rw [hassign col hcol hprov, hget]
  rfl

/-- C3 counterexample: the `to_dict`/`from_dict` roundtrip with default
options does not reproduce the exposed primary key `id`: the source
entity has `id = 1`, the dict carries `id = 1`, yet the freshly
constructed target ends with `id` unset (`None`), because `from_dict`
defaults to `ignore_pk=SECURE_TRUE`. -/
theorem C3_counterexample :
    to_dict 0 entC3 [("id", .vint 1), ("label", .vstr "x")] {} =
      .ok [("id", .vint 1), ("label", .vstr "x")] ∧
    from_dict entC3 [] [("id", .vint 1), ("label", .vstr "x")] =
      .ok [("label", .vstr "x")] ∧
    getattr [("id", PyVal.vint 1), ("label", PyVal.vstr "x")] "id" = .vint 1 ∧
    getattr [("label", PyVal.vstr "x")] "id" = .vnone :=
  ⟨by rfl, by rfl, by rfl, by rfl⟩

/-- C3 witness: the amended roundtrip on a concrete entity. -/
theorem C3_witness :
    WellFormed entC3 ∧
    (∃ d res, to_dict 0 entC3 [("id", .vint 1), ("label", .vstr "x")] {} =
        .ok d ∧
      from_dict entC3 [] d = .ok res ∧
      ∀ col ∈ exposed_foreign_key_columns entC3 ++ exposed_columns entC3,
        getattr res col =
          getattr [("id", PyVal.vint 1), ("label", PyVal.vstr "x")] col) :=
  ⟨by decide,
   C3_roundtrip_non_pk 0 entC3 [("id", .vint 1), ("label", .vstr "x")] []
     (by decide) (by decide)
     (by
       intro r hr
       rw [show exposed_relationships entC3 = [] from rfl] at hr
       exact absurd hr (List.not_mem_nil r))
     (by decide)⟩

/-! ## C6 -/

theorem mem_refKeys_of_mem {l : List (String × PageRef)} {p : String × PageRef}
    (h : p ∈ l) : p.1 ∈ refKeys l :=
  List.mem_map.mpr ⟨p, h, rfl⟩

theorem find?_key_eq_some {l : List (String × PageRef)} {k : String} {v : PageRef}
    (hnd : (refKeys l).Nodup) (hmem : (k, v) ∈ l) :
    l.find? (fun p => p.1 == k) = some (k, v) := by
  induction l with
  | nil => cases hmem
  | cons hd tl ih =>
    rw [show refKeys (hd :: tl) = hd.1 :: refKeys tl from rfl, List.nodup_cons] at hnd
    rcases List.mem_cons.mp hmem with heq | htl
    · rw [← heq]
      simp [List.find?_cons]
    · have hb : (hd.1 == k) = false := by
        simp only [beq_eq_false_iff_ne, ne_eq]
        intro h
        exact hnd.1 (by rw [h]; exact mem_refKeys_of_mem htl)
      simp only [List.find?_cons, hb, cond_false]
      exact ih hnd.2 htl

theorem keys_eraseP_ne {l : List (String × PageRef)} {k : String}
    (hnd : (refKeys l).Nodup) :
    ∀ q ∈ l.eraseP (fun p => p.1 == k), q.1 ≠ k := by
  induction l with
  | nil => intro q hq; cases hq
  | cons hd tl ih =>
    rw [show refKeys (hd :: tl) = hd.1 :: refKeys tl from rfl, List.nodup_cons] at hnd
    cases hb : hd.1 == k with
    | true =>
      simp only [List.eraseP_cons, hb, cond_true]
      intro q hq hqk
      have hh : hd.1 = k := by simpa using hb
      exact hnd.1 (by rw [hh, ← hqk]; exact mem_refKeys_of_mem hq)
    | false =>
      simp only [List.eraseP_cons, hb, cond_false]
      intro q hq
      rcases List.mem_cons.mp hq with rfl | hq'
      · simpa using hb
      · exact ih hnd.2 q hq'

theorem mem_eraseP_of_ne {l : List (String × PageRef)} {k : String}
    {q : String × PageRef} (hq : q ∈ l) (hqk : q.1 ≠ k) :
    q ∈ l.eraseP (fun p => p.1 == k) := by
  induction l with
  | nil => cases hq
  | cons hd tl ih =>
    cases hb : hd.1 == k with
    | true =>
      simp only [List.eraseP_cons, hb, cond_true]
      rcases List.mem_cons.mp hq with rfl | hq'
      · exact absurd (by simpa using hb) hqk
      · exact hq'
    | false =>
      simp only [List.eraseP_cons, hb, cond_false]
      rcases List.mem_cons.mp hq with rfl | hq'
      · exact List.mem_cons_self _ _
      · exact List.mem_cons_of_mem _ (ih hq')

theorem key_unique {l : List (String × PageRef)} {k : String} {a b : PageRef}
    (hnd : (refKeys l).Nodup) (ha : (k, a) ∈ l) (hb : (k, b) ∈ l) : a = b := by
  induction l with
  | nil => cases ha
  | cons hd tl ih =>
    rw [show refKeys (hd :: tl) = hd.1 :: refKeys tl from rfl, List.nodup_cons] at hnd
    rcases List.mem_cons.mp ha with h1 | h1 <;> rcases List.mem_cons.mp hb with h2 | h2
    · exact congrArg Prod.snd (h1.trans h2.symm)
    · exact absurd (mem_refKeys_of_mem h2) (by rw [← h1] at hnd; exact hnd.1)
    · exact absurd (mem_refKeys_of_mem h1) (by rw [← h2] at hnd; exact hnd.1)
    · exact ih hnd.2 h1 h2

theorem popRef_found {l : List (String × PageRef)} {k : String} {v : PageRef}
    (hnd : (refKeys l).Nodup) (hmem : (k, v) ∈ l) :
    popRef l k = (some v, l.eraseP (fun p => p.1 == k)) := by
  unfold popRef
  rw [find?_key_eq_some hnd hmem]

theorem popRef_not_found {l : List (String × PageRef)} {k : String}
    (h : ∀ p ∈ l, p.1 ≠ k) : popRef l k = (none, l) := by
  unfold popRef
  rw [List.find?_eq_none.mpr (fun p hp => by simpa using h p hp)]

theorem any_key_iff {l : List (String × PageRef)} {k : String} :
    l.any (fun p => p.1 == k) = true ↔ ∃ v, (k, v) ∈ l := by
  rw [List.any_eq_true]
  constructor
  · rintro ⟨⟨p1, p2⟩, hp, hbe⟩
    have h : p1 = k := by simpa using hbe
    subst h
    exact ⟨p2, hp⟩
  · rintro ⟨v, hv⟩
    exact ⟨(k, v), hv, by simp⟩

/-- Unfolding equation for `removeRefAux` at positive fuel. -/
theorem removeRefAux_succ (fuel : Nat) (fromPages : Bool) (s : AdminState)
    (key : String) :
    removeRefAux (fuel + 1) fromPages s key =
      if fromPages then
        match popRef s.pages key with
        | (some instance_, pages') =>
          removeRefAux fuel false { s with pages := pages' } instance_.entity
        | (none, _) => s
      else
        match popRef s.entities key with
        | (some instance_, entities') =>
          removeRefAux fuel true { s with entities := entities' }
            instance_.get_register_name
        | (none, _) => s := rfl

theorem remove_from_pages_found (s : AdminState) (hcons : Consistent s)
    {name : String} {A : PageRef} (hmem : (name, A) ∈ s.pages) :
    remove_from_pages s name =
      { pages := s.pages.eraseP (fun p => p.1 == name),
        entities := s.entities.eraseP (fun p => p.1 == A.entity) } := by
  obtain ⟨hnp, hne, hgrn, hent, hpe, hep⟩ := hcons
  have hA2 : (A.entity, A) ∈ s.entities := hpe (name, A) hmem
  have h1 : popRef s.pages name = (some A, s.pages.eraseP (fun p => p.1 == name)) :=
    popRef_found hnp hmem
  have h2 : popRef s.entities A.entity =
      (some A, s.entities.eraseP (fun p => p.1 == A.entity)) :=
    popRef_found hne hA2
  have h3 : popRef (s.pages.eraseP (fun p => p.1 == name)) A.get_register_name =
      (none, s.pages.eraseP (fun p => p.1 == name)) := by
    apply popRef_not_found
    intro p hp
    rw [hgrn (name, A) hmem]
    exact keys_eraseP_ne hnp p hp
  obtain ⟨m, hm⟩ : ∃ m, s.pages.length + s.entities.length + 1 = m + 1 + 1 + 1 := by
    have l1 := List.length_pos_of_mem hmem
    have l2 := List.length_pos_of_mem hA2
    exact ⟨s.pages.length + s.entities.length - 2, by omega⟩
  unfold remove_from_pages
  rw [hm, removeRefAux_succ, if_pos rfl, h1]
  dsimp only
  rw [removeRefAux_succ, if_neg Bool.false_ne_true, h2]
  dsimp only
  rw [removeRefAux_succ, if_pos rfl, h3]

theorem remove_from_entities_found (s : AdminState) (hcons : Consistent s)
    {ent : String} {A : PageRef} (hmem : (ent, A) ∈ s.entities) :
    remove_from_entities s ent =
      { pages := s.pages.eraseP (fun p => p.1 == A.get_register_name),
        entities := s.entities.eraseP (fun p => p.1 == ent) } := by
  obtain ⟨hnp, hne, hgrn, hent, hpe, hep⟩ := hcons
  have hA2 : (A.get_register_name, A) ∈ s.pages := hep (ent, A) hmem
  have h1 : popRef s.entities ent =
      (some A, s.entities.eraseP (fun p => p.1 == ent)) :=
    popRef_found hne hmem
  have h2 : popRef s.pages A.get_register_name =
      (some A, s.pages.eraseP (fun p => p.1 == A.get_register_name)) :=
    popRef_found hnp hA2
  have h3 : popRef (s.entities.eraseP (fun p => p.1 == ent)) A.entity =
      (none, s.entities.eraseP (fun p => p.1 == ent)) := by
    apply popRef_not_found
    intro p hp
    rw [hent (ent, A) hmem]
    exact keys_eraseP_ne hne p hp
  obtain ⟨m, hm⟩ : ∃ m, s.pages.length + s.entities.length + 1 = m + 1 + 1 + 1 := by
    have l1 := List.length_pos_of_mem hmem
    have l2 := List.length_pos_of_mem hA2
    exact ⟨s.pages.length + s.entities.length - 2, by omega⟩
  unfold remove_from_entities
  rw [hm, removeRefAux_succ, if_neg Bool.false_ne_true, h1]
  dsimp only
  rw [removeRefAux_succ, if_pos rfl, h2]
  dsimp only
  rw [removeRefAux_succ, if_neg Bool.false_ne_true, h3]

theorem consistent_erase_pair {s : AdminState} (hcons : Consistent s)
    {name : String} {A : PageRef} (hmem : (name, A) ∈ s.pages) :
    Consistent { pages := s.pages.eraseP (fun p => p.1 == name),
                 entities := s.entities.eraseP (fun p => p.1 == A.entity) } := by
  obtain ⟨hnp, hne, hgrn, hent, hpe, hep⟩ := hcons
  have hA2 : (A.entity, A) ∈ s.entities := hpe (name, A) hmem
  have hnameA : A.get_register_name = name := hgrn (name, A) hmem
  refine ⟨?_, ?_, ?_, ?_, ?_, ?_⟩
  · exact List.Nodup.sublist (List.Sublist.map _ (List.eraseP_sublist _)) hnp
  · exact List.Nodup.sublist (List.Sublist.map _ (List.eraseP_sublist _)) hne
  · intro q hq; exact hgrn q (List.mem_of_mem_eraseP hq)
  · intro q hq; exact hent q (List.mem_of_mem_eraseP hq)
  · intro q hq
    have hql : q ∈ s.pages := List.mem_of_mem_eraseP hq
    have hqk : q.1 ≠ name := keys_eraseP_ne hnp q hq
    have hqA : q.2 ≠ A := by
      intro h
      exact hqk (by rw [← hgrn q hql, h, hnameA])
    apply mem_eraseP_of_ne (hpe q hql)
    intro hk
    exact hqA (key_unique hne (hk ▸ hpe q hql) hA2)
  · intro q hq
    have hql : q ∈ s.entities := List.mem_of_mem_eraseP hq
    have hqk : q.1 ≠ A.entity := keys_eraseP_ne hne q hq
    have hqA : q.2 ≠ A := by
      intro h
      exact hqk (by rw [← hent q hql, h])
    apply mem_eraseP_of_ne (hep q hql)
    intro hk
    exact hqA (key_unique hnp (hk ▸ hep q hql)
      (show (name, A) ∈ s.pages from hmem))

theorem erase_pair_no_value {s : AdminState} (hcons : Consistent s)
    {name : String} {A : PageRef} (hmem : (name, A) ∈ s.pages) :
    (∀ q ∈ s.pages.eraseP (fun p => p.1 == name), q.2 ≠ A) ∧
    (∀ q ∈ s.entities.eraseP (fun p => p.1 == A.entity), q.2 ≠ A) := by
  obtain ⟨hnp, hne, hgrn, hent, hpe, hep⟩ := hcons
  have hnameA : A.get_register_name = name := hgrn (name, A) hmem
  constructor
  · intro q hq h
    exact keys_eraseP_ne hnp q hq
      (by rw [← hgrn q (List.mem_of_mem_eraseP hq), h, hnameA])
  · intro q hq h
    exact keys_eraseP_ne hne q hq
      (by rw [← hent q (List.mem_of_mem_eraseP hq), h])

theorem erase_pair_no_value_ent {s : AdminState} (hcons : Consistent s)
    {ent : String} {A : PageRef} (hmem : (ent, A) ∈ s.entities) :
    (∀ q ∈ s.pages.eraseP (fun p => p.1 == A.get_register_name), q.2 ≠ A) ∧
    (∀ q ∈ s.entities.eraseP (fun p => p.1 == ent), q.2 ≠ A) := by
  obtain ⟨hnp, hne, hgrn, hent, hpe, hep⟩ := hcons
  have hentA : A.entity = ent := hent (ent, A) hmem
  constructor
  · intro q hq h
    exact keys_eraseP_ne hnp q hq
      (by rw [← hgrn q (List.mem_of_mem_eraseP hq), h])
  · intro q hq h
    exact keys_eraseP_ne hne q hq
      (by rw [← hent q (List.mem_of_mem_eraseP hq), h, hentA])

theorem find?_overwrite (l : List (String × PageRef)) (k : String) (v : PageRef)
    (h : l.any (fun p => p.1 == k) = true) :
    (l.map (fun p => if p.1 == k then (k, v) else p)).find? (fun p => p.1 == k) =
      some (k, v) := by
  induction l with
  | nil => simp at h
  | cons hd tl ih =>
    rw [List.map_cons]
    cases hb : (hd.1 == k) with
    | false =>
      simp only [hb, Bool.false_eq_true, if_false, List.find?_cons, cond_false]
      apply ih
      rw [List.any_cons, hb, Bool.false_or] at h
      exact h
    | true =>
      simp only [hb, if_true, List.find?_cons]
      simp

theorem lookupRef_setRef_self (l : List (String × PageRef)) (k : String)
    (v : PageRef) : lookupRef (setRef l k v) k = some v := by
  unfold lookupRef setRef
  by_cases h : l.any (fun p => p.1 == k) = true
  · rw [if_pos h, find?_overwrite l k v h]
    rfl
  · have hnone : l.find? (fun p => p.1 == k) = none := by
      refine List.find?_eq_none.mpr ?_
      rintro ⟨p1, p2⟩ hp hpk
      have hk : p1 = k := by simpa using hpk
      subst hk
      exact h (any_key_iff.mpr ⟨p2, hp⟩)
    rw [if_neg h, List.find?_append, hnone]
    simp

theorem mem_setRef {l : List (String × PageRef)} {k : String} {v : PageRef}
    {q : String × PageRef} (h : q ∈ setRef l k v) : q.2 = v ∨ q ∈ l := by
  unfold setRef at h
  by_cases ha : l.any (fun p => p.1 == k) = true
  · rw [if_pos ha] at h
    rcases List.mem_map.mp h with ⟨p, hp, hq⟩
    by_cases hh : (p.1 == k) = true
    · rw [if_pos hh] at hq
      left; rw [← hq]
    · rw [if_neg hh] at hq
      right; rw [← hq]; exact hp
  · rw [if_neg ha] at h
    rcases List.mem_append.mp h with h1 | h1
    · right; exact h1
    · left
      have hq : q = (k, v) := by simpa using h1
      rw [hq]

/-- C6: on a consistent manager state that already has a page registered
under the new page's register name or entity, `register` without the
replace option reports `DuplicatedAdminPageError` and leaves both
registries untouched; with `replace = true` it succeeds, both the
name-indexed and the entity-indexed registry afterwards map to the new
page, and any old page that occupied the duplicated name or entity is
gone from both registries. -/
theorem C6_register_duplicate (s : AdminState) (inst : PageRef)
    (hcons : Consistent s)
    (hdup : (∃ B, (inst.get_register_name, B) ∈ s.pages) ∨
            (∃ B, (inst.entity, B) ∈ s.entities)) :
    register s inst false = (some RegisterError.duplicatedAdminPage, s) ∧
    (register s inst true).1 = none ∧
    lookupRef (register s inst true).2.pages inst.get_register_name = some inst ∧
    lookupRef (register s inst true).2.entities inst.entity = some inst ∧
    (∀ A : PageRef, A ≠ inst →
      ((inst.get_register_name, A) ∈ s.pages ∨ (inst.entity, A) ∈ s.entities) →
      (∀ q ∈ (register s inst true).2.pages, q.2 ≠ A) ∧
      (∀ q ∈ (register s inst true).2.entities, q.2 ≠ A)) := by
  have hnp := hcons.1
  have hne := hcons.2.1
  have hpe := hcons.2.2.2.2.1
  by_cases hn : s.pages.any (fun p => p.1 == inst.get_register_name) = true
  · -- a page with the same register name exists
    obtain ⟨A1, hA1⟩ := any_key_iff.mp hn
    have hs1 := remove_from_pages_found s hcons hA1
    have hc1 := consistent_erase_pair hcons hA1
    have habs1 := erase_pair_no_value hcons hA1
    by_cases hn2 : (s.entities.eraseP
        (fun p => p.1 == A1.entity)).any (fun p => p.1 == inst.entity) = true
    · obtain ⟨A2, hA2'⟩ := any_key_iff.mp hn2
      have hs2 := remove_from_entities_found
        { pages := s.pages.eraseP (fun p => p.1 == inst.get_register_name),
          entities := s.entities.eraseP (fun p => p.1 == A1.entity) } hc1 hA2'
      have hreg : register s inst true =
          (none,
            { pages := setRef ((s.pages.eraseP
                  (fun p => p.1 == inst.get_register_name)).eraseP
                (fun p => p.1 == A2.get_register_name))
                inst.get_register_name inst,
              entities := setRef ((s.entities.eraseP
                  (fun p => p.1 == A1.entity)).eraseP
                (fun p => p.1 == inst.entity))
                inst.entity inst }) := by
        unfold register
        dsimp only
        rw [if_neg (show ¬((s.pages.any
            (fun p => p.1 == inst.get_register_name) && !true) = true) by simp)]
        rw [if_pos hn, hs1]
        dsimp only
        rw [if_neg (show ¬(((s.entities.eraseP
            (fun p => p.1 == A1.entity)).any
            (fun p => p.1 == inst.entity) && !true) = true) by simp)]
        rw [if_pos hn2, hs2]
      refine ⟨?_, ?_, ?_, ?_, ?_⟩
      · unfold register
        dsimp only
        rw [if_pos (show (s.pages.any
            (fun p => p.1 == inst.get_register_name) && !false) = true by
          simp [hn])]
      · rw [hreg]
      · rw [hreg]; exact lookupRef_setRef_self _ _ _
      · rw [hreg]; exact lookupRef_setRef_self _ _ _
      · intro A hAne hAs
        have habsA : (∀ q ∈ ((s.pages.eraseP
              (fun p => p.1 == inst.get_register_name)).eraseP
              (fun p => p.1 == A2.get_register_name)), q.2 ≠ A) ∧
            (∀ q ∈ ((s.entities.eraseP (fun p => p.1 == A1.entity)).eraseP
              (fun p => p.1 == inst.entity)), q.2 ≠ A) := by
          by_cases hAA1 : A = A1
          · subst hAA1
            exact ⟨fun q hq => habs1.1 q (List.mem_of_mem_eraseP hq),
                   fun q hq => habs1.2 q (List.mem_of_mem_eraseP hq)⟩
          · have hAright : (inst.entity, A) ∈ s.entities := by
              rcases hAs with hL | hR
              · exact absurd (key_unique hnp hL hA1) hAA1
              · exact hR
            have hne1 : inst.entity ≠ A1.entity := by
              intro hEq
              exact hAA1 (key_unique hne (hEq ▸ hAright)
                (hpe (inst.get_register_name, A1) hA1))
            have hmem1 : (inst.entity, A) ∈
                s.entities.eraseP (fun p => p.1 == A1.entity) :=
              mem_eraseP_of_ne hAright hne1
            have hAA2 : A = A2 := key_unique hc1.2.1 hmem1 hA2'
            subst hAA2
            exact erase_pair_no_value_ent hc1 hA2'
        rw [hreg]
        constructor
        · intro q hq
          rcases mem_setRef hq with hv | hv
          · rw [hv]; exact fun hh => hAne hh.symm
          · exact habsA.1 q hv
        · intro q hq
          rcases mem_setRef hq with hv | hv
          · rw [hv]; exact fun hh => hAne hh.symm
          · exact habsA.2 q hv
    · -- no page occupies the new page's entity after the name removal
      have hreg : register s inst true =
          (none,
            { pages := setRef (s.pages.eraseP
                (fun p => p.1 == inst.get_register_name))
                inst.get_register_name inst,
              entities := setRef (s.entities.eraseP
                (fun p => p.1 == A1.entity))
                inst.entity inst }) := by
        unfold register
        dsimp only
        rw [if_neg (show ¬((s.pages.any
            (fun p => p.1 == inst.get_register_name) && !true) = true) by simp)]
        rw [if_pos hn, hs1]
        dsimp only
        rw [if_neg (show ¬(((s.entities.eraseP
            (fun p => p.1 == A1.entity)).any
            (fun p => p.1 == inst.entity) && !true) = true) by simp)]
        rw [if_neg hn2]
      refine ⟨?_, ?_, ?_, ?_, ?_⟩
      · unfold register
        dsimp only
        rw [if_pos (show (s.pages.any
            (fun p => p.1 == inst.get_register_name) && !false) = true by
          simp [hn])]
      · rw [hreg]
      · rw [hreg]; exact lookupRef_setRef_self _ _ _
      · rw [hreg]; exact lookupRef_setRef_self _ _ _
      · intro A hAne hAs
        have habsA : (∀ q ∈ s.pages.eraseP
              (fun p => p.1 == inst.get_register_name), q.2 ≠ A) ∧
            (∀ q ∈ s.entities.eraseP (fun p => p.1 == A1.entity), q.2 ≠ A) := by
          by_cases hAA1 : A = A1
          · subst hAA1
            exact habs1
          · have hAright : (inst.entity, A) ∈ s.entities := by
              rcases hAs with hL | hR
              · exact absurd (key_unique hnp hL hA1) hAA1
              · exact hR
            have hne1 : inst.entity ≠ A1.entity := by
              intro hEq
              exact hAA1 (key_unique hne (hEq ▸ hAright)
                (hpe (inst.get_register_name, A1) hA1))
            exact absurd
              (any_key_iff.mpr ⟨A, mem_eraseP_of_ne hAright hne1⟩) hn2
        rw [hreg]
        constructor
        · intro q hq
          rcases mem_setRef hq with hv | hv
          · rw [hv]; exact fun hh => hAne hh.symm
          · exact habsA.1 q hv
        · intro q hq
          rcases mem_setRef hq with hv | hv
          · rw [hv]; exact fun hh => hAne hh.symm
          · exact habsA.2 q hv
  · -- the duplicate is on the entity side only
    have hedup : ∃ B, (inst.entity, B) ∈ s.entities := by
      rcases hdup with ⟨B, hB⟩ | hB
      · exact absurd (any_key_iff.mpr ⟨B, hB⟩) hn
      · exact hB
    obtain ⟨B0, hB0⟩ := hedup
    have he : s.entities.any (fun p => p.1 == inst.entity) = true :=
      any_key_iff.mpr ⟨B0, hB0⟩
    have hs2 := remove_from_entities_found s hcons hB0
    have hreg : register s inst true =
        (none,
          { pages := setRef (s.pages.eraseP
              (fun p => p.1 == B0.get_register_name))
              inst.get_register_name inst,
            entities := setRef (s.entities.eraseP
              (fun p => p.1 == inst.entity))
              inst.entity inst }) := by
      unfold register
      dsimp only
      rw [if_neg (show ¬((s.pages.any
          (fun p => p.1 == inst.get_register_name) && !true) = true) by simp)]
      rw [if_neg hn]
      rw [if_neg (show ¬((s.entities.any
          (fun p => p.1 == inst.entity) && !true) = true) by simp)]
      rw [if_pos he, hs2]
    refine ⟨?_, ?_, ?_, ?_, ?_⟩
    · unfold register
      dsimp only
      rw [if_neg (show ¬((s.pages.any
          (fun p => p.1 == inst.get_register_name) && !false) = true) by
        simp only [Bool.not_false, Bool.and_true]; exact hn)]
      rw [if_neg hn]
      rw [if_pos (show (s.entities.any
          (fun p => p.1 == inst.entity) && !false) = true by simp [he])]
    · rw [hreg]
    · rw [hreg]; exact lookupRef_setRef_self _ _ _
    · rw [hreg]; exact lookupRef_setRef_self _ _ _
    · intro A hAne hAs
      have hAright : (inst.entity, A) ∈ s.entities := by
        rcases hAs with hL | hR
        · exact absurd (any_key_iff.mpr ⟨A, hL⟩) hn
        · exact hR
      have hAB : A = B0 := key_unique hne hAright hB0
      subst hAB
      have habsA := erase_pair_no_value_ent hcons hB0
      rw [hreg]
      constructor
      · intro q hq
        rcases mem_setRef hq with hv | hv
        · rw [hv]; exact fun hh => hAne hh.symm
        · exact habsA.1 q hv
      · intro q hq
        rcases mem_setRef hq with hv | hv
        · rw [hv]; exact fun hh => hAne hh.symm
        · exact habsA.2 q hv

/-- C6 witness: a concrete one-page state, a second page with the same
register name, both hypotheses discharged concretely. -/
theorem C6_witness :
    Consistent stC6 ∧
    ((∃ B, (pgC6b.get_register_name, B) ∈ stC6.pages) ∨
     (∃ B, (pgC6b.entity, B) ∈ stC6.entities)) ∧
    (register stC6 pgC6b false = (some RegisterError.duplicatedAdminPage, stC6) ∧
     (register stC6 pgC6b true).1 = none ∧
     lookupRef (register stC6 pgC6b true).2.pages pgC6b.get_register_name =
       some pgC6b ∧
     lookupRef (register stC6 pgC6b true).2.entities pgC6b.entity = some pgC6b ∧
     (∀ A : PageRef, A ≠ pgC6b →
       ((pgC6b.get_register_name, A) ∈ stC6.pages ∨
        (pgC6b.entity, A) ∈ stC6.entities) →
       (∀ q ∈ (register stC6 pgC6b true).2.pages, q.2 ≠ A) ∧
       (∀ q ∈ (register stC6 pgC6b true).2.entities, q.2 ≠ A))) :=
  ⟨by decide, Or.inl ⟨pgC6a, by decide⟩,
   C6_register_duplicate stC6 pgC6b (by decide) (Or.inl ⟨pgC6a, by decide⟩)⟩

end Pyrin
